import Mathlib

/-!
Verification of the solana_dex_build_go DEX adapter / transaction assembly
layer.  The Go sources are shallowly embedded: pure functions become Lean
functions on `Nat`/`Int`/`List`, 64-bit unsigned integers are `Nat`s with
explicit `< 2^64` side conditions where they matter, `float64` values are
modelled as dyadic rationals with an explicit IEEE-754 binary64
round-to-nearest-even rounding function, and fallible Go functions return
`Except String` carrying the (constant part of the) Go error message.
Network effects (HTTP transport, Solana RPC) are passed in as explicit
environment values; the SHA-256 based address derivations
(`solana.FindProgramAddress`, `solana.FindAssociatedTokenAddress`) are
passed in as an abstract `AddressDeriver`, reflecting that every derived
address is a pure function of the seeds and the program id.

All recursive definitions use structural (fuel-based) recursion so that
concrete instances evaluate inside the kernel.
-/

/-! ## Little-endian byte encoding (Go `binary.LittleEndian.PutUint64`) -/

/-- Encoding: `toBytesLE w n` is the `w`-byte little-endian encoding of `n % 256^w`. -/
def toBytesLE : Nat → Nat → List Nat
  | 0, _ => []
  | w + 1, n => n % 256 :: toBytesLE w (n / 256)

/-- 8-byte little-endian encoding, as written by Go `PutUint64`. -/
def putUint64LE (n : Nat) : List Nat := toBytesLE 8 n

/-- Decode a little-endian byte list back to a natural number. -/
def leDecode (l : List Nat) : Nat := l.foldr (fun b acc => b + 256 * acc) 0

theorem toBytesLE_length (w n : Nat) : (toBytesLE w n).length = w := by
  induction w generalizing n with
  | zero => rfl
  | succ w ih => simp [toBytesLE, ih]

theorem leDecode_toBytesLE (w n : Nat) : leDecode (toBytesLE w n) = n % 256 ^ w := by
  induction w generalizing n with
  | zero => simp [toBytesLE, leDecode, Nat.mod_one]
  | succ w ih =>
      have h : leDecode (toBytesLE (w + 1) n)
          = n % 256 + 256 * leDecode (toBytesLE w (n / 256)) := by
        simp [toBytesLE, leDecode]
      rw [h, ih]
      calc n % 256 + 256 * (n / 256 % 256 ^ w)
          = n % (256 * 256 ^ w) := Nat.mod_mul.symm
        _ = n % 256 ^ (w + 1) := by ring_nf

/-! ## Base58 (the key format used by `solana.PublicKeyFromBase58` /
`PublicKey.String`, btcd-style alphabet) -/

def b58Alphabet : List Char :=
  "123456789ABCDEFGHJKLMNPQRSTUVWXYZabcdefghijkmnopqrstuvwxyz".data

/-- Digit value `d` (< 58) to its base58 character. -/
def b58Char (d : Nat) : Char := b58Alphabet.getD d '1'

/-- Index of a character in a list (`none` if absent). -/
def indexOfChar : List Char → Char → Option Nat
  | [], _ => none
  | a :: as, c => if a = c then some 0 else (indexOfChar as c).map (· + 1)

/-- Base58 digit value of a character. -/
def b58DigitOf (c : Char) : Option Nat := indexOfChar b58Alphabet c

/-- Big-endian value of a byte (or digit) list. -/
def bytesToNatBE (l : List Nat) : Nat := l.foldl (fun a b => a * 256 + b) 0

def countLeadingZeroBytes : List Nat → Nat
  | [] => 0
  | b :: t => if b = 0 then countLeadingZeroBytes t + 1 else 0

def countLeadingOneChars : List Char → Nat
  | [] => 0
  | c :: t => if c = '1' then countLeadingOneChars t + 1 else 0

/-- Minimal big-endian base-256 digits of `n` (fuel-based; correct for
`n < 256 ^ fuel`). -/
def natToBytesBEAux : Nat → Nat → List Nat
  | 0, _ => []
  | f + 1, n => if n = 0 then [] else natToBytesBEAux f (n / 256) ++ [n % 256]

/-- Minimal base-58 digit characters of `n` (fuel-based; correct for
`n < 58 ^ fuel`). -/
def natToB58Aux : Nat → Nat → List Char
  | 0, _ => []
  | f + 1, n => if n = 0 then [] else natToB58Aux f (n / 58) ++ [b58Char (n % 58)]

/-- Base58 encoding of a byte list: one `'1'` per leading zero byte, then
the base-58 digits of the big-endian value.  This is what
`PublicKey.String()` produces. -/
def base58EncodeList (l : List Nat) : List Char :=
  List.replicate (countLeadingZeroBytes l) '1'
    ++ natToB58Aux (2 * l.length) (bytesToNatBE l)

/-- Accumulating base58 digit fold; `none` on the first invalid character. -/
def b58ValueGo : Nat → List Char → Option Nat
  | acc, [] => some acc
  | acc, c :: cs =>
    match b58DigitOf c with
    | none => none
    | some d => b58ValueGo (acc * 58 + d) cs

/-- Base58 decoding of a character list: the big number given by the digit
fold, rendered as big-endian bytes, with one leading zero byte per leading
`'1'` character (btcd `base58.Decode`, as used by Go `PublicKeyFromBase58`). -/
def base58DecodeList (s : List Char) : Option (List Nat) :=
  match b58ValueGo 0 s with
  | none => none
  | some v =>
      some (List.replicate (countLeadingOneChars s) 0 ++ natToBytesBEAux s.length v)

/-- A Solana public key: exactly 32 bytes. -/
def Pubkey := { l : List Nat // l.length = 32 ∧ ∀ b ∈ l, b < 256 }

instance : DecidableEq Pubkey := fun a b =>
  decidable_of_iff (a.val = b.val) Subtype.ext_iff.symm

theorem natToBytesBEAux_bytes_lt (f n : Nat) : ∀ b ∈ natToBytesBEAux f n, b < 256 := by
  induction f generalizing n with
  | zero => intro b hb; simp [natToBytesBEAux] at hb
  | succ f ih =>
      intro b hb
      by_cases h0 : n = 0
      · simp [natToBytesBEAux, h0] at hb
      · simp only [natToBytesBEAux, h0, if_false, List.mem_append, List.mem_singleton] at hb
        rcases hb with hb | hb
        · exact ih _ b hb
        · subst hb; exact Nat.mod_lt _ (by norm_num)

theorem base58DecodeList_bytes_lt (s : List Char) (l : List Nat)
    (h : base58DecodeList s = some l) : ∀ b ∈ l, b < 256 := by
  unfold base58DecodeList at h
  cases hv : b58ValueGo 0 s with
  | none => rw [hv] at h; exact absurd h (by simp)
  | some v =>
      rw [hv] at h
      simp only [Option.some.injEq] at h
      subst h
      intro b hb
      rcases List.mem_append.mp hb with hb | hb
      · have := List.eq_of_mem_replicate hb; omega
      · exact natToBytesBEAux_bytes_lt _ _ b hb

/-- Go `solana.PublicKeyFromBase58`: base58-decode, then require exactly
32 bytes. -/
def pubkeyFromBase58 (s : String) : Option Pubkey :=
  match h : base58DecodeList s.data with
  | none => none
  | some l =>
      if h32 : l.length = 32 then
        some ⟨l, h32, base58DecodeList_bytes_lt s.data l h⟩
      else none

/-- Go `PublicKey.String()`: base58 encoding of the 32 key bytes. -/
def pkString (k : Pubkey) : List Char := base58EncodeList k.val

/-- Go byte-wise string comparison `<` (base58 strings are ASCII, so
byte order and character order agree). -/
def lexLt : List Char → List Char → Bool
  | [], [] => false
  | [], _ :: _ => true
  | _ :: _, [] => false
  | a :: as, b :: bs => if a < b then true else if b < a then false else lexLt as bs

theorem lexLt_antisymm : ∀ x y : List Char,
    lexLt x y = false → lexLt y x = false → x = y := by
  intro x
  induction x with
  | nil => intro y hxy _; cases y with
      | nil => rfl
      | cons b bs => simp [lexLt] at hxy
  | cons a as ih =>
      intro y hxy hyx
      cases y with
      | nil => simp [lexLt] at hyx
      | cons b bs =>
          by_cases hab : a < b
          · simp [lexLt, hab] at hxy
          · by_cases hba : b < a
            · simp [lexLt, hba] at hyx
            · have hab' : a = b := le_antisymm (not_lt.mp hba) (not_lt.mp hab)
              subst hab'
              simp only [lexLt, lt_irrefl, if_false] at hxy hyx
              rw [ih bs hxy hyx]

/-! ### Base58 encode/decode roundtrip (towards injectivity of `pkString`) -/

theorem b58ValueGo_append (xs ys : List Char) : ∀ acc,
    b58ValueGo acc (xs ++ ys)
      = (b58ValueGo acc xs).bind (fun a => b58ValueGo a ys) := by
  induction xs with
  | nil => intro acc; simp [b58ValueGo]
  | cons c cs ih =>
      intro acc
      cases hd : b58DigitOf c with
      | none => simp [b58ValueGo, hd]
      | some d => simp [b58ValueGo, hd, ih]

theorem b58DigitOf_b58Char : ∀ d : Fin 58, b58DigitOf (b58Char d.val) = some d.val := by
  decide

theorem b58Char_ne_one : ∀ d : Fin 58, 0 < d.val → b58Char d.val ≠ '1' := by
  decide

theorem natToB58Aux_zero (f : Nat) : natToB58Aux f 0 = [] := by
  cases f <;> simp [natToB58Aux]

theorem natToB58Aux_value (f : Nat) : ∀ n acc, n < 58 ^ f →
    b58ValueGo acc (natToB58Aux f n)
      = some (acc * 58 ^ (natToB58Aux f n).length + n) := by
  induction f with
  | zero =>
      intro n acc hn
      interval_cases n
      simp [natToB58Aux, b58ValueGo]
  | succ f ih =>
      intro n acc hn
      by_cases h0 : n = 0
      · subst h0; simp [natToB58Aux, b58ValueGo]
      · have hdiv : n / 58 < 58 ^ f := by
          apply Nat.div_lt_of_lt_mul
          calc n < 58 ^ (f + 1) := hn
            _ = 58 * 58 ^ f := by ring
        have hmod : n % 58 < 58 := Nat.mod_lt _ (by norm_num)
        have hstep : natToB58Aux (f + 1) n
            = natToB58Aux f (n / 58) ++ [b58Char (n % 58)] := by
          simp [natToB58Aux, h0]
        rw [hstep, b58ValueGo_append, ih (n / 58) acc hdiv]
        have hval : b58ValueGo (acc * 58 ^ (natToB58Aux f (n / 58)).length + n / 58)
            [b58Char (n % 58)]
            = some ((acc * 58 ^ (natToB58Aux f (n / 58)).length + n / 58) * 58 + n % 58) := by
          have := b58DigitOf_b58Char ⟨n % 58, hmod⟩
          simp [b58ValueGo, this]
        rw [Option.some_bind, hval]
        simp only [List.length_append, List.length_singleton]
        congr 1
        have hmod2 := Nat.div_add_mod n 58
        calc (acc * 58 ^ (natToB58Aux f (n / 58)).length + n / 58) * 58 + n % 58
            = acc * (58 ^ (natToB58Aux f (n / 58)).length * 58)
              + (58 * (n / 58) + n % 58) := by ring
          _ = acc * 58 ^ ((natToB58Aux f (n / 58)).length + 1) + n := by
              rw [hmod2, pow_succ]

theorem natToB58Aux_lt (f : Nat) : ∀ n, n < 58 ^ f →
    n < 58 ^ (natToB58Aux f n).length := by
  induction f with
  | zero =>
      intro n hn; interval_cases n; simp [natToB58Aux]
  | succ f ih =>
      intro n hn
      by_cases h0 : n = 0
      · subst h0; simp [natToB58Aux]
      · have hdiv : n / 58 < 58 ^ f := by
          apply Nat.div_lt_of_lt_mul
          calc n < 58 ^ (f + 1) := hn
            _ = 58 * 58 ^ f := by ring
        have hstep : natToB58Aux (f + 1) n
            = natToB58Aux f (n / 58) ++ [b58Char (n % 58)] := by
          simp [natToB58Aux, h0]
        rw [hstep]
        simp only [List.length_append, List.length_singleton]
        have h1 := ih (n / 58) hdiv
        have h2 := Nat.div_add_mod n 58
        have h3 : n % 58 < 58 := Nat.mod_lt _ (by norm_num)
        have : n < 58 * 58 ^ (natToB58Aux f (n / 58)).length := by omega
        calc n < 58 * 58 ^ (natToB58Aux f (n / 58)).length := this
          _ = 58 ^ ((natToB58Aux f (n / 58)).length + 1) := by ring

theorem natToB58Aux_ne_nil (f n : Nat) (h0 : 0 < n) (hn : n < 58 ^ f) :
    natToB58Aux f n ≠ [] := by
  cases f with
  | zero => simp at hn; omega
  | succ f =>
      have : n ≠ 0 := by omega
      simp [natToB58Aux, this]

theorem countLeadingOneChars_append_of_pos (xs ys : List Char)
    (hne : xs ≠ []) (h : countLeadingOneChars xs = 0) :
    countLeadingOneChars (xs ++ ys) = 0 := by
  cases xs with
  | nil => exact absurd rfl hne
  | cons c t =>
      by_cases hc : c = '1'
      · simp [countLeadingOneChars, hc] at h
      · simp [countLeadingOneChars, hc]

theorem natToB58Aux_clo (f : Nat) : ∀ n, n < 58 ^ f →
    countLeadingOneChars (natToB58Aux f n) = 0 := by
  induction f with
  | zero => intro n hn; interval_cases n; simp [natToB58Aux, countLeadingOneChars]
  | succ f ih =>
      intro n hn
      by_cases h0 : n = 0
      · subst h0; simp [natToB58Aux, countLeadingOneChars]
      · have hdiv : n / 58 < 58 ^ f := by
          apply Nat.div_lt_of_lt_mul
          calc n < 58 ^ (f + 1) := hn
            _ = 58 * 58 ^ f := by ring
        have hstep : natToB58Aux (f + 1) n
            = natToB58Aux f (n / 58) ++ [b58Char (n % 58)] := by
          simp [natToB58Aux, h0]
        rw [hstep]
        by_cases hq : n / 58 = 0
        · have hn58 : n < 58 := by
            have := Nat.div_add_mod n 58
            have : n % 58 < 58 := Nat.mod_lt _ (by norm_num)
            omega
          have hmodpos : 0 < n % 58 := by
            rw [Nat.mod_eq_of_lt hn58]; omega
          have hne := b58Char_ne_one ⟨n % 58, Nat.mod_lt _ (by norm_num)⟩ hmodpos
          rw [hq, natToB58Aux_zero]
          simp [countLeadingOneChars, hne]
        · exact countLeadingOneChars_append_of_pos _ _
            (natToB58Aux_ne_nil f (n / 58) (by omega) hdiv)
            (ih (n / 58) hdiv)

theorem natToBytesBEAux_zero (f : Nat) : natToBytesBEAux f 0 = [] := by
  cases f <;> simp [natToBytesBEAux]

theorem natToBytesBEAux_fuel (f : Nat) : ∀ g n, n < 256 ^ f → n < 256 ^ g →
    natToBytesBEAux f n = natToBytesBEAux g n := by
  induction f with
  | zero =>
      intro g n hf _
      interval_cases n
      rw [natToBytesBEAux_zero, natToBytesBEAux_zero]
  | succ f ih =>
      intro g n hf hg
      by_cases h0 : n = 0
      · subst h0; rw [natToBytesBEAux_zero, natToBytesBEAux_zero]
      · cases g with
        | zero => simp at hg; omega
        | succ g =>
            have hdf : n / 256 < 256 ^ f := by
              apply Nat.div_lt_of_lt_mul
              calc n < 256 ^ (f + 1) := hf
                _ = 256 * 256 ^ f := by ring
            have hdg : n / 256 < 256 ^ g := by
              apply Nat.div_lt_of_lt_mul
              calc n < 256 ^ (g + 1) := hg
                _ = 256 * 256 ^ g := by ring
            simp only [natToBytesBEAux, h0, if_false]
            rw [ih g (n / 256) hdf hdg]

theorem bytesToNatBE_foldl_acc (l : List Nat) : ∀ acc,
    l.foldl (fun a b => a * 256 + b) acc = acc * 256 ^ l.length + bytesToNatBE l := by
  induction l with
  | nil => intro acc; simp [bytesToNatBE]
  | cons b t ih =>
      intro acc
      have hval : bytesToNatBE (b :: t) = b * 256 ^ t.length + bytesToNatBE t := by
        show (b :: t).foldl (fun a b => a * 256 + b) 0 = _
        rw [List.foldl_cons, ih (0 * 256 + b)]
        ring_nf
      rw [List.foldl_cons, ih (acc * 256 + b), hval]
      simp only [List.length_cons]
      ring

theorem bytesToNatBE_cons (b : Nat) (t : List Nat) :
    bytesToNatBE (b :: t) = b * 256 ^ t.length + bytesToNatBE t := by
  show (b :: t).foldl (fun a b => a * 256 + b) 0 = _
  rw [List.foldl_cons, bytesToNatBE_foldl_acc]
  ring_nf

theorem bytesToNatBE_lt (l : List Nat) (h : ∀ b ∈ l, b < 256) :
    bytesToNatBE l < 256 ^ l.length := by
  induction l with
  | nil => simp [bytesToNatBE]
  | cons b t ih =>
      have hb : b < 256 := h b (List.mem_cons_self b t)
      have ht := ih (fun x hx => h x (List.mem_cons_of_mem b hx))
      rw [bytesToNatBE_cons]
      simp only [List.length_cons]
      calc b * 256 ^ t.length + bytesToNatBE t
          < b * 256 ^ t.length + 256 ^ t.length := by omega
        _ = (b + 1) * 256 ^ t.length := by ring
        _ ≤ 256 * 256 ^ t.length := by
            apply Nat.mul_le_mul_right; omega
        _ = 256 ^ (t.length + 1) := by ring

theorem bytesToNatBE_head_pos (b : Nat) (t : List Nat) (hb : b ≠ 0) :
    256 ^ t.length ≤ bytesToNatBE (b :: t) := by
  rw [bytesToNatBE_cons]
  have : 1 * 256 ^ t.length ≤ b * 256 ^ t.length :=
    Nat.mul_le_mul_right _ (by omega)
  omega

theorem bytesToNatBE_append_singleton (l : List Nat) (a : Nat) :
    bytesToNatBE (l ++ [a]) = bytesToNatBE l * 256 + a := by
  show (l ++ [a]).foldl (fun a b => a * 256 + b) 0 = _
  rw [List.foldl_append]
  rfl

theorem natToBytesBEAux_recon_pos :
    ∀ l : List Nat, (∀ b ∈ l, b < 256) →
      (∃ b t, l = b :: t ∧ b ≠ 0) →
      natToBytesBEAux l.length (bytesToNatBE l) = l := by
  intro l
  induction l using List.reverseRecOn with
  | nil =>
      rintro _ ⟨b, t, hbt, _⟩
      exact absurd hbt (by simp)
  | append_singleton l a ih =>
      rintro hlt ⟨b, t, hbt, hb⟩
      cases l with
      | nil =>
          simp only [List.nil_append] at hbt
          have ha : a = b := by injection hbt
          subst ha
          have hb256 : a < 256 := hlt a (by simp)
          have hane : a ≠ 0 := hb
          have h1 : bytesToNatBE [a] = a := by
            simp [bytesToNatBE]
          simp only [List.nil_append, List.length_singleton, h1]
          have hd : a / 256 = 0 := Nat.div_eq_of_lt hb256
          have hm : a % 256 = a := Nat.mod_eq_of_lt hb256
          simp [natToBytesBEAux, hane, hd, hm, natToBytesBEAux_zero]
      | cons c t' =>
          have hlt' : ∀ x ∈ c :: t', x < 256 := by
            intro x hx; exact hlt x (List.mem_append_left _ hx)
          have ha256 : a < 256 := hlt a (List.mem_append_right _ (by simp))
          have hc : c = b := by
            have : c :: (t' ++ [a]) = b :: t := by simpa using hbt
            injection this
          have hcne : c ≠ 0 := by rw [hc]; exact hb
          have hval := bytesToNatBE_append_singleton (c :: t') a
          have hpos : 256 ^ t'.length ≤ bytesToNatBE (c :: t') :=
            bytesToNatBE_head_pos c t' hcne
          have hvpos : bytesToNatBE (c :: t') * 256 + a ≠ 0 := by
            have h1 : 1 ≤ 256 ^ t'.length := Nat.one_le_pow _ _ (by norm_num)
            omega
          have hdiv : (bytesToNatBE (c :: t') * 256 + a) / 256 = bytesToNatBE (c :: t') := by
            omega
          have hmod : (bytesToNatBE (c :: t') * 256 + a) % 256 = a := by
            omega
          have hlen : ((c :: t') ++ [a]).length = (c :: t').length + 1 := by simp
          rw [hlen, hval, natToBytesBEAux, if_neg hvpos, hdiv, hmod,
            ih hlt' ⟨c, t', rfl, hcne⟩]

theorem natToBytesBEAux_recon (l : List Nat) (h : ∀ b ∈ l, b < 256) :
    natToBytesBEAux l.length (bytesToNatBE l)
      = List.drop (countLeadingZeroBytes l) l := by
  induction l with
  | nil => simp [bytesToNatBE, natToBytesBEAux, countLeadingZeroBytes]
  | cons b t ih =>
      by_cases hb : b = 0
      · subst hb
        have hvt : bytesToNatBE (0 :: t) = bytesToNatBE t := by
          rw [bytesToNatBE_cons]; ring_nf
        have ht256 : ∀ x ∈ t, x < 256 := fun x hx => h x (List.mem_cons_of_mem _ hx)
        have hlt : bytesToNatBE t < 256 ^ t.length := bytesToNatBE_lt t ht256
        have hlt' : bytesToNatBE t < 256 ^ (t.length + 1) := by
          calc bytesToNatBE t < 256 ^ t.length := hlt
            _ ≤ 256 ^ (t.length + 1) := Nat.pow_le_pow_right (by norm_num) (by omega)
        have hfuel := natToBytesBEAux_fuel (t.length + 1) t.length (bytesToNatBE t) hlt' hlt
        simp only [List.length_cons, hvt, countLeadingZeroBytes, if_pos rfl]
        rw [hfuel, ih ht256]
        simp
      · have hclz : countLeadingZeroBytes (b :: t) = 0 := by
          simp [countLeadingZeroBytes, hb]
        rw [hclz, List.drop_zero]
        exact natToBytesBEAux_recon_pos (b :: t) h ⟨b, t, rfl, hb⟩

theorem take_countLeadingZeroBytes (l : List Nat) :
    List.take (countLeadingZeroBytes l) l
      = List.replicate (countLeadingZeroBytes l) 0 := by
  induction l with
  | nil => simp [countLeadingZeroBytes]
  | cons b t ih =>
      by_cases hb : b = 0
      · subst hb
        simp [countLeadingZeroBytes, List.replicate_succ, ih]
      · simp [countLeadingZeroBytes, hb]

theorem b58DigitOf_one : b58DigitOf '1' = some 0 := by decide

theorem b58ValueGo_replicate_ones (z : Nat) : ∀ rest,
    b58ValueGo 0 (List.replicate z '1' ++ rest) = b58ValueGo 0 rest := by
  induction z with
  | zero => intro rest; simp
  | succ z ih =>
      intro rest
      simp only [List.replicate_succ, List.cons_append, b58ValueGo, b58DigitOf_one]
      exact ih rest

theorem countLeadingOneChars_replicate (z : Nat) (xs : List Char) :
    countLeadingOneChars (List.replicate z '1' ++ xs)
      = z + countLeadingOneChars xs := by
  induction z with
  | zero => simp
  | succ z ih =>
      simp only [List.replicate_succ, List.cons_append, countLeadingOneChars, if_true,
        eq_self_iff_true, List.append_eq]
      rw [ih]
      omega

/-- Decoding inverts encoding on byte lists (in particular on 32-byte keys). -/
theorem base58DecodeList_encode (l : List Nat) (h : ∀ b ∈ l, b < 256) :
    base58DecodeList (base58EncodeList l) = some l := by
  have hv : bytesToNatBE l < 256 ^ l.length := bytesToNatBE_lt l h
  have h58 : bytesToNatBE l < 58 ^ (2 * l.length) := by
    calc bytesToNatBE l < 256 ^ l.length := hv
      _ ≤ (58 ^ 2) ^ l.length := Nat.pow_le_pow_left (by norm_num) _
      _ = 58 ^ (2 * l.length) := by rw [← pow_mul, Nat.mul_comm]
  have hval := natToB58Aux_value (2 * l.length) (bytesToNatBE l) 0 h58
  have hclo := natToB58Aux_clo (2 * l.length) (bytesToNatBE l) h58
  have hlenb := natToB58Aux_lt (2 * l.length) (bytesToNatBE l) h58
  unfold base58EncodeList base58DecodeList
  rw [b58ValueGo_replicate_ones, hval]
  simp only [Nat.zero_mul, Nat.zero_add]
  rw [countLeadingOneChars_replicate _ _, hclo, Nat.add_zero]
  have hfuel : natToBytesBEAux
      (List.replicate (countLeadingZeroBytes l) '1'
        ++ natToB58Aux (2 * l.length) (bytesToNatBE l)).length (bytesToNatBE l)
      = natToBytesBEAux l.length (bytesToNatBE l) := by
    apply natToBytesBEAux_fuel
    · calc bytesToNatBE l < 58 ^ (natToB58Aux (2 * l.length) (bytesToNatBE l)).length :=
          hlenb
        _ ≤ 256 ^ (natToB58Aux (2 * l.length) (bytesToNatBE l)).length :=
          Nat.pow_le_pow_left (by norm_num) _
        _ ≤ 256 ^ (List.replicate (countLeadingZeroBytes l) '1'
            ++ natToB58Aux (2 * l.length) (bytesToNatBE l)).length := by
          apply Nat.pow_le_pow_right (by norm_num)
          simp
    · exact hv
  rw [hfuel, natToBytesBEAux_recon l h, ← take_countLeadingZeroBytes l,
    List.take_append_drop]

/-- Injectivity of `PublicKey.String()`: two 32-byte keys with the same
base58 string are the same key. -/
theorem pkString_inj (k1 k2 : Pubkey) (h : pkString k1 = pkString k2) : k1 = k2 := by
  have h1 := base58DecodeList_encode k1.val k1.prop.2
  have h2 := base58DecodeList_encode k2.val k2.prop.2
  unfold pkString at h
  rw [h] at h1
  have heq : (some k1.val : Option (List Nat)) = some k2.val := h1.symm.trans h2
  exact Subtype.ext (by injection heq)

/-! ## IEEE-754 binary64 model

Go `float64` values are dyadic rationals `m * 2^e`.  Arithmetic on them is
exact arithmetic followed by round-to-nearest-even at 53 significand bits
(with the subnormal exponent clamp at `2^-1074`).  Overflow to infinity
(at `2^1024`) is not modelled; all values reached in this development stay
far below it. -/

/-- Fuel-based binary logarithm: `nlog2Aux f n = ⌊log₂ n⌋` whenever
`1 ≤ n ≤ f`. -/
def nlog2Aux : Nat → Nat → Nat
  | 0, _ => 0
  | f + 1, n => if n ≤ 1 then 0 else nlog2Aux f (n / 2) + 1

def nlog2 (n : Nat) : Nat := nlog2Aux n n

theorem nlog2Aux_spec (f : Nat) : ∀ n, 1 ≤ n → n ≤ f →
    2 ^ nlog2Aux f n ≤ n ∧ n < 2 ^ (nlog2Aux f n + 1) := by
  induction f with
  | zero => intro n h1 h2; omega
  | succ f ih =>
      intro n h1 h2
      by_cases hsmall : n ≤ 1
      · have : n = 1 := by omega
        subst this
        simp [nlog2Aux]
      · have h2' : 2 ≤ n := by omega
        have hd1 : 1 ≤ n / 2 := by omega
        have hd2 : n / 2 ≤ f := by omega
        have hrec := ih (n / 2) hd1 hd2
        simp only [nlog2Aux, hsmall, if_false]
        constructor
        · calc 2 ^ (nlog2Aux f (n / 2) + 1) = 2 * 2 ^ nlog2Aux f (n / 2) := by ring
            _ ≤ 2 * (n / 2) := by omega
            _ ≤ n := by omega
        · calc n < 2 * (n / 2) + 2 := by omega
            _ ≤ 2 * 2 ^ (nlog2Aux f (n / 2) + 1) := by omega
            _ = 2 ^ (nlog2Aux f (n / 2) + 1 + 1) := by ring

theorem nlog2_spec (n : Nat) (h : 1 ≤ n) :
    2 ^ nlog2 n ≤ n ∧ n < 2 ^ (nlog2 n + 1) :=
  nlog2Aux_spec n n h le_rfl

theorem nlog2_le_of_lt_pow (n k : Nat) (h1 : 1 ≤ n) (h : n < 2 ^ (k + 1)) :
    nlog2 n ≤ k := by
  by_contra hgt
  have hk : k + 1 ≤ nlog2 n := by omega
  have := (nlog2_spec n h1).1
  have : 2 ^ (k + 1) ≤ n :=
    le_trans (Nat.pow_le_pow_right (by norm_num) hk) this
  omega

/-- A dyadic rational `m * 2^e`: the exact value set of binary floating
point.  Go `float64` values are exactly the dyadics with 53-bit mantissa
and clamped exponent. -/
structure DyRat where
  m : Int
  e : Int
deriving DecidableEq

namespace DyRat

/-- The rational value `m * 2^e`. -/
def toRat (d : DyRat) : ℚ := (d.m : ℚ) * 2 ^ d.e

def neg (d : DyRat) : DyRat := ⟨-d.m, d.e⟩

def mul (a b : DyRat) : DyRat := ⟨a.m * b.m, a.e + b.e⟩

/-- Exact subtraction: align to the smaller exponent. -/
def sub (a b : DyRat) : DyRat :=
  let e := min a.e b.e
  ⟨a.m * 2 ^ (a.e - e).toNat - b.m * 2 ^ (b.e - e).toNat, e⟩

/-- Floor of the value, as an integer (`/` on `Int` rounds down for the positive
power-of-two divisor). -/
def floor (d : DyRat) : Int :=
  if 0 ≤ d.e then d.m * 2 ^ d.e.toNat else d.m / 2 ^ (-d.e).toNat

end DyRat

def dyOne : DyRat := ⟨1, 0⟩

/-- Round a positive mantissa right-shifted by `s ≥ 1` bits to the nearest
integer, ties to even. -/
def roundMantissa (mn : Nat) (s : Nat) : Nat :=
  let q := mn / 2 ^ s
  let r := mn % 2 ^ s
  let half := 2 ^ (s - 1)
  if r < half then q
  else if half < r then q + 1
  else if q % 2 = 0 then q else q + 1

/-- Round the positive value `mn * 2^e` to 53 significand bits
(round-to-nearest-even), with the subnormal clamp at `2^-1074`.  The
target exponent is `max (⌊log₂(mn·2^e)⌋ - 52) (-1074)`; when it does not
exceed `e` the value is already representable and is returned unchanged. -/
def roundF64Pos (mn : Nat) (e : Int) : DyRat :=
  if max ((nlog2 mn : Int) + e - 52) (-1074) ≤ e then ⟨mn, e⟩
  else ⟨roundMantissa mn ((max ((nlog2 mn : Int) + e - 52) (-1074)) - e).toNat,
        max ((nlog2 mn : Int) + e - 52) (-1074)⟩

/-- IEEE-754 binary64 round-to-nearest-even on a dyadic value. -/
def roundF64 (d : DyRat) : DyRat :=
  if 0 < d.m then roundF64Pos d.m.toNat d.e
  else if d.m = 0 then ⟨0, 0⟩
  else DyRat.neg (roundF64Pos (-d.m).toNat d.e)

/-- Go `float64(n)` for `n : uint64`: round to nearest even. -/
def f64ofNat (n : Nat) : DyRat := roundF64 ⟨(n : Int), 0⟩

/-- Go float64 subtraction: exact difference, then one rounding. -/
def f64sub (a b : DyRat) : DyRat := roundF64 (DyRat.sub a b)

/-- Go float64 multiplication: exact product, then one rounding. -/
def f64mul (a b : DyRat) : DyRat := roundF64 (DyRat.mul a b)

/-- Go `uint64(f)`: truncation toward zero.  For the nonnegative values
produced in this development truncation equals `⌊·⌋`, and `Int.toNat`
sends negatives to `0` just as the truncated conversion would.  (For
values `≥ 2^64` the Go conversion is implementation-defined; theorems
below carry an explicit `< 2^64` side condition there.) -/
def goUint64OfF64 (d : DyRat) : Nat := d.floor.toNat

/-! ### The ℚ-level rounding specification and its bridge to `roundF64` -/

/-- Nearest integer, ties to even. -/
def nteQ (x : ℚ) : ℤ :=
  if x - ⌊x⌋ < 1 / 2 then ⌊x⌋
  else if 1 / 2 < x - ⌊x⌋ then ⌊x⌋ + 1
  else if ⌊x⌋ % 2 = 0 then ⌊x⌋ else ⌊x⌋ + 1

/-- Round a positive rational to 53 significand bits, nearest-even, with
subnormal clamp. -/
def rndPos (q : ℚ) : ℚ :=
  (nteQ (q * 2 ^ (-(max (Int.log 2 q - 52) (-1074)))) : ℚ)
    * 2 ^ (max (Int.log 2 q - 52) (-1074))

/-- Rational-level binary64 rounding. -/
def rnd (q : ℚ) : ℚ :=
  if 0 < q then rndPos q else if q = 0 then 0 else -rndPos (-q)

theorem nteQ_intCast (n : ℤ) : nteQ (n : ℚ) = n := by
  simp [nteQ]

theorem floor_le_nteQ (x : ℚ) : ⌊x⌋ ≤ nteQ x := by
  unfold nteQ
  split
  · exact le_rfl
  · split
    · omega
    · split <;> omega

theorem nteQ_le_floor_add_one (x : ℚ) : nteQ x ≤ ⌊x⌋ + 1 := by
  unfold nteQ
  split
  · omega
  · split
    · exact le_rfl
    · split <;> omega

theorem nteQ_nonneg (x : ℚ) (h : 0 ≤ x) : 0 ≤ nteQ x := by
  have := floor_le_nteQ x
  have := Int.floor_nonneg.mpr h
  omega

theorem nteQ_mono {x y : ℚ} (h : x ≤ y) : nteQ x ≤ nteQ y := by
  have hfl : ⌊x⌋ ≤ ⌊y⌋ := Int.floor_le_floor h
  by_cases heq : ⌊x⌋ = ⌊y⌋
  · by_cases h1 : x - ⌊x⌋ < 1 / 2
    · calc nteQ x = ⌊x⌋ := by unfold nteQ; rw [if_pos h1]
        _ = ⌊y⌋ := heq
        _ ≤ nteQ y := floor_le_nteQ y
    · by_cases h2 : 1 / 2 < y - ⌊y⌋
      · have hx : nteQ x ≤ ⌊x⌋ + 1 := nteQ_le_floor_add_one x
        have hy : nteQ y = ⌊y⌋ + 1 := by
          have hy1 : ¬(y - ⌊y⌋ < 1 / 2) := by
            push_neg at h1 ⊢
            rw [← heq]
            linarith
          unfold nteQ
          rw [if_neg hy1, if_pos h2]
        omega
      · push_neg at h1 h2
        have hc : ((⌊x⌋ : ℤ) : ℚ) = ((⌊y⌋ : ℤ) : ℚ) := by exact_mod_cast heq
        have hyx : y ≤ x := by linarith
        rw [le_antisymm h hyx]
  · have hlt : ⌊x⌋ + 1 ≤ ⌊y⌋ := by omega
    calc nteQ x ≤ ⌊x⌋ + 1 := nteQ_le_floor_add_one x
      _ ≤ ⌊y⌋ := hlt
      _ ≤ nteQ y := floor_le_nteQ y

theorem two_zpow_pos (e : Int) : (0:ℚ) < 2 ^ e := zpow_pos (by norm_num) e

theorem DyRat.toRat_neg (d : DyRat) : d.neg.toRat = -d.toRat := by
  unfold DyRat.neg DyRat.toRat
  push_cast
  ring

theorem DyRat.toRat_mul (a b : DyRat) : (a.mul b).toRat = a.toRat * b.toRat := by
  unfold DyRat.mul DyRat.toRat
  rw [zpow_add₀ (two_ne_zero)]
  push_cast
  ring

theorem DyRat.toRat_align (m : Int) (e e' : Int) (h : e' ≤ e) :
    ((m * 2 ^ (e - e').toNat : Int) : ℚ) * 2 ^ e' = (m : ℚ) * 2 ^ e := by
  push_cast
  rw [mul_assoc]
  congr 1
  have h1 : ((2:ℚ) ^ (e - e').toNat) = (2:ℚ) ^ ((e - e') : ℤ) := by
    rw [← zpow_natCast]
    congr 1
    omega
  rw [h1, ← zpow_add₀ (two_ne_zero : (2:ℚ) ≠ 0)]
  congr 1
  omega

theorem DyRat.toRat_sub (a b : DyRat) : (a.sub b).toRat = a.toRat - b.toRat := by
  have h1 := DyRat.toRat_align a.m a.e (min a.e b.e) (min_le_left _ _)
  have h2 := DyRat.toRat_align b.m b.e (min a.e b.e) (min_le_right _ _)
  unfold DyRat.sub
  show ((a.m * 2 ^ (a.e - min a.e b.e).toNat
      - b.m * 2 ^ (b.e - min a.e b.e).toNat : Int) : ℚ) * 2 ^ (min a.e b.e)
      = a.toRat - b.toRat
  calc ((a.m * 2 ^ (a.e - min a.e b.e).toNat
      - b.m * 2 ^ (b.e - min a.e b.e).toNat : Int) : ℚ) * 2 ^ (min a.e b.e)
      = ((a.m * 2 ^ (a.e - min a.e b.e).toNat : Int) : ℚ) * 2 ^ (min a.e b.e)
        - ((b.m * 2 ^ (b.e - min a.e b.e).toNat : Int) : ℚ) * 2 ^ (min a.e b.e) := by
        push_cast; ring
    _ = a.toRat - b.toRat := by rw [h1, h2]; rfl

theorem DyRat.toRat_pos (d : DyRat) : 0 < d.toRat ↔ 0 < d.m := by
  unfold DyRat.toRat
  rw [mul_pos_iff_of_pos_right (two_zpow_pos d.e)]
  exact_mod_cast Iff.rfl

theorem DyRat.toRat_eq_zero (d : DyRat) : d.toRat = 0 ↔ d.m = 0 := by
  unfold DyRat.toRat
  constructor
  · intro h
    rcases mul_eq_zero.mp h with h | h
    · exact_mod_cast h
    · exact absurd h (ne_of_gt (two_zpow_pos d.e))
  · intro h; rw [h]; simp

theorem DyRat.floor_toRat (d : DyRat) : d.floor = ⌊d.toRat⌋ := by
  unfold DyRat.floor DyRat.toRat
  by_cases he : 0 ≤ d.e
  · rw [if_pos he]
    have h1 : (d.m : ℚ) * 2 ^ d.e = ((d.m * 2 ^ d.e.toNat : Int) : ℚ) := by
      push_cast
      congr 1
      rw [← zpow_natCast]
      congr 1
      omega
    rw [h1, Int.floor_intCast]
  · rw [if_neg he]
    have h1 : (d.m : ℚ) * 2 ^ d.e = ((d.m : ℤ) : ℚ) / ((2 ^ (-d.e).toNat : ℕ) : ℚ) := by
      rw [div_eq_mul_inv]
      congr 1
      push_cast
      rw [← zpow_natCast ((2:ℚ)), ← zpow_neg]
      congr 1
      omega
    rw [h1, Rat.floor_intCast_div_natCast]
    push_cast
    rfl

theorem intLog2_of_bounds (q : ℚ) (k : Int) (h1 : (2:ℚ) ^ k ≤ q) (h2 : q < 2 ^ (k + 1)) :
    Int.log 2 q = k := by
  have hq : 0 < q := lt_of_lt_of_le (two_zpow_pos k) h1
  have hle : k ≤ Int.log 2 q := by
    have hm := Int.log_mono_right (R := ℚ) (b := 2) (two_zpow_pos k) h1
    have hz : Int.log 2 ((2:ℚ) ^ k) = k := by
      have hlz := Int.log_zpow (R := ℚ) (b := 2) (by norm_num : 1 < 2) k
      norm_num at hlz
      exact hlz
    rwa [hz] at hm
  have hge : Int.log 2 q ≤ k := by
    by_contra hgt
    push_neg at hgt
    have h3 : (2:ℚ) ^ (k + 1) ≤ 2 ^ (Int.log 2 q) := by
      apply zpow_le_zpow_right₀ (by norm_num : (1:ℚ) ≤ 2)
      omega
    have h4 := Int.zpow_log_le_self (R := ℚ) (b := 2) (by norm_num) hq
    norm_num at h4
    linarith
  omega

theorem log_mantissa (mn : Nat) (e : Int) (h : 1 ≤ mn) :
    Int.log 2 ((mn : ℚ) * 2 ^ e) = (nlog2 mn : Int) + e := by
  obtain ⟨hlo, hhi⟩ := nlog2_spec mn h
  apply intLog2_of_bounds
  · rw [zpow_add₀ two_ne_zero]
    apply mul_le_mul_of_nonneg_right _ (le_of_lt (two_zpow_pos e))
    rw [zpow_natCast]
    exact_mod_cast hlo
  · have hsplit : (nlog2 mn : Int) + e + 1 = ((nlog2 mn + 1 : ℕ) : ℤ) + e := by
      push_cast; ring
    rw [hsplit, zpow_add₀ two_ne_zero]
    apply mul_lt_mul_of_pos_right _ (two_zpow_pos e)
    rw [zpow_natCast]
    exact_mod_cast hhi

theorem nteQ_div_pow (mn : Nat) (s : Nat) (hs : 1 ≤ s) :
    nteQ ((mn : ℚ) / ((2 ^ s : ℕ) : ℚ)) = (roundMantissa mn s : ℤ) := by
  have hpow_pos : (0:ℚ) < ((2 ^ s : ℕ) : ℚ) := by positivity
  have hfloor : ⌊(mn : ℚ) / ((2 ^ s : ℕ) : ℚ)⌋ = ((mn / 2 ^ s : ℕ) : ℤ) := by
    have h0 : ((mn : ℕ) : ℚ) = (((mn : ℕ) : ℤ) : ℚ) := by push_cast; rfl
    rw [h0, Rat.floor_intCast_div_natCast]
    exact (Int.ofNat_div mn (2 ^ s)).symm
  have hfrac : (mn : ℚ) / ((2 ^ s : ℕ) : ℚ) - (((mn / 2 ^ s : ℕ) : ℤ) : ℚ)
      = ((mn % 2 ^ s : ℕ) : ℚ) / ((2 ^ s : ℕ) : ℚ) := by
    have hdm := Nat.div_add_mod mn (2 ^ s)
    have hPne : ((2 ^ s : ℕ) : ℚ) ≠ 0 := ne_of_gt hpow_pos
    have hsum : (mn : ℚ) = ((2 ^ s : ℕ) : ℚ) * (((mn / 2 ^ s : ℕ) : ℤ) : ℚ)
        + ((mn % 2 ^ s : ℕ) : ℚ) := by
      calc (mn : ℚ) = ((2 ^ s * (mn / 2 ^ s) + mn % 2 ^ s : ℕ) : ℚ) := by rw [hdm]
        _ = ((2 ^ s : ℕ) : ℚ) * (((mn / 2 ^ s : ℕ) : ℤ) : ℚ) + ((mn % 2 ^ s : ℕ) : ℚ) := by
            rw [Int.cast_natCast]
            push_cast
            ring
    rw [hsum, add_div, mul_div_cancel_left₀ _ hPne]
    ring
  have h2s : (2 : ℕ) ^ s = 2 * 2 ^ (s - 1) := by
    conv_lhs => rw [show s = s - 1 + 1 by omega]
    rw [pow_succ]
    ring
  have hlt : ((mn % 2 ^ s : ℕ) : ℚ) / ((2 ^ s : ℕ) : ℚ) < 1 / 2
      ↔ mn % 2 ^ s < 2 ^ (s - 1) := by
    rw [div_lt_div_iff hpow_pos (by norm_num : (0:ℚ) < 2), one_mul]
    constructor
    · intro hh
      have hn : mn % 2 ^ s * 2 < 2 ^ s := by exact_mod_cast hh
      omega
    · intro hh
      have hn : mn % 2 ^ s * 2 < 2 ^ s := by omega
      exact_mod_cast hn
  have hgt : 1 / 2 < ((mn % 2 ^ s : ℕ) : ℚ) / ((2 ^ s : ℕ) : ℚ)
      ↔ 2 ^ (s - 1) < mn % 2 ^ s := by
    rw [div_lt_div_iff (by norm_num : (0:ℚ) < 2) hpow_pos, one_mul]
    constructor
    · intro hh
      have hn : 2 ^ s < mn % 2 ^ s * 2 := by exact_mod_cast hh
      omega
    · intro hh
      have hn : 2 ^ s < mn % 2 ^ s * 2 := by omega
      exact_mod_cast hn
  unfold nteQ
  simp only [roundMantissa]
  rw [hfloor, hfrac]
  by_cases hc1 : mn % 2 ^ s < 2 ^ (s - 1)
  · rw [if_pos (hlt.mpr hc1), if_pos hc1]
  · rw [if_neg (fun hq => hc1 (hlt.mp hq)), if_neg hc1]
    by_cases hc2 : 2 ^ (s - 1) < mn % 2 ^ s
    · rw [if_pos (hgt.mpr hc2), if_pos hc2]
      push_cast
      ring
    · rw [if_neg (fun hq => hc2 (hgt.mp hq)), if_neg hc2]
      by_cases hc3 : (mn / 2 ^ s) % 2 = 0
      · rw [if_pos (by omega : ((mn / 2 ^ s : ℕ) : ℤ) % 2 = 0), if_pos hc3]
      · rw [if_neg (by omega : ¬ ((mn / 2 ^ s : ℕ) : ℤ) % 2 = 0), if_neg hc3]
        push_cast
        ring

theorem roundF64Pos_toRat (mn : Nat) (e : Int) (h : 1 ≤ mn) :
    (roundF64Pos mn e).toRat = rndPos ((mn : ℚ) * 2 ^ e) := by
  have hlog := log_mantissa mn e h
  unfold roundF64Pos rndPos
  rw [hlog]
  by_cases hEe : max ((nlog2 mn : Int) + e - 52) (-1074) ≤ e
  · rw [if_pos hEe]
    have hint : (mn : ℚ) * 2 ^ e * 2 ^ (-(max ((nlog2 mn : Int) + e - 52) (-1074)))
        = (((mn : Int) * 2 ^ (e - max ((nlog2 mn : Int) + e - 52) (-1074)).toNat : Int) : ℚ) := by
      rw [mul_assoc, ← zpow_add₀ (two_ne_zero : (2:ℚ) ≠ 0)]
      push_cast
      congr 1
      rw [← zpow_natCast]
      congr 1
      omega
    rw [hint, nteQ_intCast,
      DyRat.toRat_align (mn : Int) e (max ((nlog2 mn : Int) + e - 52) (-1074)) hEe]
    rfl
  · rw [if_neg hEe]
    push_neg at hEe
    have hs : 1 ≤ ((max ((nlog2 mn : Int) + e - 52) (-1074)) - e).toNat := by omega
    have hz : (mn : ℚ) * 2 ^ e * 2 ^ (-(max ((nlog2 mn : Int) + e - 52) (-1074)))
        = (mn : ℚ) / ((2 ^ ((max ((nlog2 mn : Int) + e - 52) (-1074)) - e).toNat : ℕ) : ℚ) := by
      rw [mul_assoc, ← zpow_add₀ (two_ne_zero : (2:ℚ) ≠ 0), div_eq_mul_inv]
      congr 1
      have hpow : ((2 ^ ((max ((nlog2 mn : Int) + e - 52) (-1074)) - e).toNat : ℕ) : ℚ)
          = (2:ℚ) ^ (((max ((nlog2 mn : Int) + e - 52) (-1074)) - e : ℤ)) := by
        push_cast
        rw [← zpow_natCast ((2:ℚ))]
        congr 1
        omega
      rw [hpow, ← zpow_neg]
      congr 1
      omega
    rw [hz, nteQ_div_pow mn _ hs]
    show ((roundMantissa mn ((max ((nlog2 mn : Int) + e - 52) (-1074)) - e).toNat : ℤ) : ℚ)
          * 2 ^ (max ((nlog2 mn : Int) + e - 52) (-1074))
        = ((roundMantissa mn ((max ((nlog2 mn : Int) + e - 52) (-1074)) - e).toNat : ℤ) : ℚ)
          * 2 ^ (max ((nlog2 mn : Int) + e - 52) (-1074))
    rfl

theorem roundF64_toRat (d : DyRat) : (roundF64 d).toRat = rnd d.toRat := by
  unfold roundF64 rnd
  by_cases hpos : 0 < d.m
  · rw [if_pos hpos, if_pos (d.toRat_pos.mpr hpos)]
    have hconv : ((d.m.toNat : ℕ) : ℚ) * 2 ^ d.e = d.toRat := by
      unfold DyRat.toRat
      congr 1
      exact_mod_cast congrArg (fun z : ℤ => (z : ℚ)) (Int.toNat_of_nonneg (le_of_lt hpos))
    rw [roundF64Pos_toRat d.m.toNat d.e (by omega), hconv]
  · rw [if_neg hpos]
    by_cases hzero : d.m = 0
    · rw [if_pos hzero]
      have h0 : d.toRat = 0 := d.toRat_eq_zero.mpr hzero
      rw [h0]
      norm_num [DyRat.toRat]
    · rw [if_neg hzero]
      have hneg : d.toRat < 0 := by
        have h1 : ¬ 0 < d.toRat := fun hc => hpos (d.toRat_pos.mp hc)
        have h2 : d.toRat ≠ 0 := fun hc => hzero (d.toRat_eq_zero.mp hc)
        cases lt_or_gt_of_ne h2 with
        | inl hlt => exact hlt
        | inr hgt => exact absurd hgt h1
      rw [if_neg (not_lt.mpr (le_of_lt hneg)), if_neg (ne_of_lt hneg)]
      have hconv : (((-d.m).toNat : ℕ) : ℚ) * 2 ^ d.e = -d.toRat := by
        unfold DyRat.toRat
        have hm : ((-d.m).toNat : ℤ) = -d.m := Int.toNat_of_nonneg (by omega)
        have : (((-d.m).toNat : ℕ) : ℚ) = ((-d.m : ℤ) : ℚ) := by exact_mod_cast congrArg (fun z : ℤ => (z : ℚ)) hm
        rw [this]
        push_cast
        ring
      rw [DyRat.toRat_neg, roundF64Pos_toRat (-d.m).toNat d.e (by omega), hconv]

theorem nteQ_le_of_lt_zpow (z : ℚ) (t : ℤ) (hz : 0 < z) (hlt : z < 2 ^ t) :
    (nteQ z : ℚ) ≤ 2 ^ t := by
  by_cases ht : 1 ≤ t
  · have hcast : (2:ℚ) ^ t = (((2 ^ t.toNat : ℤ)) : ℚ) := by
      push_cast
      rw [← zpow_natCast]
      congr 1
      omega
    have hfl : ⌊z⌋ < (2 ^ t.toNat : ℤ) := by
      rw [Int.floor_lt]
      rw [hcast] at hlt
      exact_mod_cast hlt
    have h1 : nteQ z ≤ ⌊z⌋ + 1 := nteQ_le_floor_add_one z
    rw [hcast]
    exact_mod_cast (by omega : nteQ z ≤ (2 ^ t.toNat : ℤ))
  · push_neg at ht
    have ht0 : t ≤ 0 := by omega
    have hle1 : (2:ℚ) ^ t ≤ 1 := by
      calc (2:ℚ) ^ t ≤ 2 ^ (0:ℤ) := zpow_le_zpow_right₀ (by norm_num) ht0
        _ = 1 := zpow_zero 2
    have hfl0 : ⌊z⌋ = 0 := by
      rw [Int.floor_eq_zero_iff]
      constructor
      · exact le_of_lt hz
      · exact lt_of_lt_of_le hlt hle1
    by_cases hhalf : z < 1 / 2
    · have hz0 : nteQ z = 0 := by
        unfold nteQ
        rw [hfl0, if_pos (by push_cast; linarith)]
      rw [hz0]
      push_cast
      exact le_of_lt (two_zpow_pos t)
    · push_neg at hhalf
      have ht0' : t = 0 := by
        by_contra hne
        have htneg : t ≤ -1 := by omega
        have hcontr : (2:ℚ) ^ t ≤ 1 / 2 := by
          calc (2:ℚ) ^ t ≤ 2 ^ (-1 : ℤ) := zpow_le_zpow_right₀ (by norm_num) htneg
            _ = 1 / 2 := by norm_num
        linarith
      subst ht0'
      have h1 : nteQ z ≤ ⌊z⌋ + 1 := nteQ_le_floor_add_one z
      rw [hfl0] at h1
      calc (nteQ z : ℚ) ≤ ((1 : ℤ) : ℚ) := by exact_mod_cast h1
        _ = 2 ^ (0:ℤ) := by norm_num

theorem rndPos_nonneg (q : ℚ) (hq : 0 < q) : 0 ≤ rndPos q := by
  unfold rndPos
  apply mul_nonneg _ (le_of_lt (two_zpow_pos _))
  have hzpos : 0 < q * 2 ^ (-(max (Int.log 2 q - 52) (-1074))) :=
    mul_pos hq (two_zpow_pos _)
  exact_mod_cast nteQ_nonneg _ (le_of_lt hzpos)

theorem rndPos_le (q : ℚ) (hq : 0 < q) : rndPos q ≤ 2 ^ (Int.log 2 q + 1) := by
  unfold rndPos
  have hlt : q * 2 ^ (-(max (Int.log 2 q - 52) (-1074)))
      < 2 ^ (Int.log 2 q + 1 - max (Int.log 2 q - 52) (-1074)) := by
    have hq2 := Int.lt_zpow_succ_log_self (R := ℚ) (b := 2) (by norm_num) q
    norm_num at hq2
    calc q * 2 ^ (-(max (Int.log 2 q - 52) (-1074)))
        < 2 ^ (Int.log 2 q + 1) * 2 ^ (-(max (Int.log 2 q - 52) (-1074))) :=
          mul_lt_mul_of_pos_right hq2 (two_zpow_pos _)
      _ = 2 ^ (Int.log 2 q + 1 - max (Int.log 2 q - 52) (-1074)) := by
          rw [← zpow_add₀ (two_ne_zero : (2:ℚ) ≠ 0)]
          congr 1
  have hzpos : 0 < q * 2 ^ (-(max (Int.log 2 q - 52) (-1074))) :=
    mul_pos hq (two_zpow_pos _)
  have hb := nteQ_le_of_lt_zpow _ _ hzpos hlt
  calc (nteQ (q * 2 ^ (-(max (Int.log 2 q - 52) (-1074)))) : ℚ)
        * 2 ^ (max (Int.log 2 q - 52) (-1074))
      ≤ 2 ^ (Int.log 2 q + 1 - max (Int.log 2 q - 52) (-1074))
        * 2 ^ (max (Int.log 2 q - 52) (-1074)) :=
        mul_le_mul_of_nonneg_right hb (le_of_lt (two_zpow_pos _))
    _ = 2 ^ (Int.log 2 q + 1) := by
        rw [← zpow_add₀ (two_ne_zero : (2:ℚ) ≠ 0)]
        congr 1
        ring

theorem rndPos_ge (q : ℚ) (hq : 0 < q) (hE : (-1074 : ℤ) ≤ Int.log 2 q - 52) :
    2 ^ (Int.log 2 q) ≤ rndPos q := by
  unfold rndPos
  rw [max_eq_left hE]
  have hz : (2:ℚ) ^ (52 : ℤ) ≤ q * 2 ^ (-(Int.log 2 q - 52)) := by
    have hq1 := Int.zpow_log_le_self (R := ℚ) (b := 2) (by norm_num) hq
    norm_num at hq1
    calc (2:ℚ) ^ (52:ℤ) = 2 ^ (Int.log 2 q) * 2 ^ (-(Int.log 2 q - 52)) := by
          rw [← zpow_add₀ (two_ne_zero : (2:ℚ) ≠ 0)]
          congr 1
          ring
      _ ≤ q * 2 ^ (-(Int.log 2 q - 52)) :=
          mul_le_mul_of_nonneg_right hq1 (le_of_lt (two_zpow_pos _))
  have hfl : (2 ^ 52 : ℤ) ≤ ⌊q * 2 ^ (-(Int.log 2 q - 52))⌋ := by
    rw [Int.le_floor]
    calc ((2 ^ 52 : ℤ) : ℚ) = 2 ^ (52:ℤ) := by norm_num
      _ ≤ q * 2 ^ (-(Int.log 2 q - 52)) := hz
  have hnte : (2 ^ 52 : ℤ) ≤ nteQ (q * 2 ^ (-(Int.log 2 q - 52))) :=
    le_trans hfl (floor_le_nteQ _)
  calc (2:ℚ) ^ (Int.log 2 q)
      = ((2 ^ 52 : ℤ) : ℚ) * 2 ^ (Int.log 2 q - 52) := by
        have h252 : ((2 ^ 52 : ℤ) : ℚ) = (2:ℚ) ^ (52 : ℤ) := by norm_num
        rw [h252, ← zpow_add₀ (two_ne_zero : (2:ℚ) ≠ 0)]
        congr 1
        ring
    _ ≤ (nteQ (q * 2 ^ (-(Int.log 2 q - 52))) : ℚ) * 2 ^ (Int.log 2 q - 52) := by
        apply mul_le_mul_of_nonneg_right _ (le_of_lt (two_zpow_pos _))
        exact_mod_cast hnte

theorem rnd_nonneg (q : ℚ) (h : 0 ≤ q) : 0 ≤ rnd q := by
  unfold rnd
  by_cases hq : 0 < q
  · rw [if_pos hq]
    exact rndPos_nonneg q hq
  · have : q = 0 := le_antisymm (not_lt.mp hq) h
    rw [if_neg hq, if_pos this]

theorem rnd_mono (x y : ℚ) (hx : 0 ≤ x) (hxy : x ≤ y) : rnd x ≤ rnd y := by
  by_cases hx0 : x = 0
  · subst hx0
    have h0 : rnd 0 = 0 := by unfold rnd; norm_num
    rw [h0]
    exact rnd_nonneg y hxy
  · have hxpos : 0 < x := lt_of_le_of_ne hx (Ne.symm hx0)
    have hypos : 0 < y := lt_of_lt_of_le hxpos hxy
    unfold rnd
    rw [if_pos hxpos, if_pos hypos]
    have hL : Int.log 2 x ≤ Int.log 2 y := Int.log_mono_right hxpos hxy
    by_cases hE : max (Int.log 2 x - 52) (-1074) = max (Int.log 2 y - 52) (-1074)
    · unfold rndPos
      rw [hE]
      apply mul_le_mul_of_nonneg_right _ (le_of_lt (two_zpow_pos _))
      have hmul : x * 2 ^ (-(max (Int.log 2 y - 52) (-1074)))
          ≤ y * 2 ^ (-(max (Int.log 2 y - 52) (-1074))) :=
        mul_le_mul_of_nonneg_right hxy (le_of_lt (two_zpow_pos _))
      exact_mod_cast nteQ_mono hmul
    · have hExEy : max (Int.log 2 x - 52) (-1074) ≤ max (Int.log 2 y - 52) (-1074) := by
        apply max_le_max _ le_rfl
        omega
      have hLxLy : Int.log 2 x < Int.log 2 y := by
        by_contra hc
        push_neg at hc
        have : Int.log 2 x = Int.log 2 y := by omega
        rw [this] at hE
        exact hE rfl
      have hEy : max (Int.log 2 y - 52) (-1074) = Int.log 2 y - 52 := by
        rcases max_cases (Int.log 2 y - 52) (-1074 : ℤ) with ⟨h1, _⟩ | ⟨h1, h2⟩
        · exact h1
        · rw [h1] at hExEy hE ⊢
          have : max (Int.log 2 x - 52) (-1074 : ℤ) = -1074 := by
            rcases max_cases (Int.log 2 x - 52) (-1074 : ℤ) with ⟨h3, h4⟩ | ⟨h3, _⟩
            · omega
            · exact h3
          omega
      calc rndPos x ≤ 2 ^ (Int.log 2 x + 1) := rndPos_le x hxpos
        _ ≤ 2 ^ (Int.log 2 y) := by
            apply zpow_le_zpow_right₀ (by norm_num : (1:ℚ) ≤ 2)
            omega
        _ ≤ rndPos y := rndPos_ge y hypos (by omega)

theorem roundF64_fix_nat (n : Nat) (h : n < 2 ^ 53) :
    roundF64 ⟨(n : Int), 0⟩ = ⟨(n : Int), 0⟩ := by
  by_cases h0 : n = 0
  · subst h0
    unfold roundF64
    norm_num
  · have hpos : (0 : Int) < (n : Int) := by exact_mod_cast Nat.pos_of_ne_zero h0
    unfold roundF64
    rw [if_pos hpos]
    have htn : ((n : Int).toNat) = n := Int.toNat_natCast n
    rw [htn]
    have hL : nlog2 n ≤ 52 := nlog2_le_of_lt_pow n 52 (Nat.pos_of_ne_zero h0) h
    unfold roundF64Pos
    rw [if_pos (by omega : max ((nlog2 n : Int) + 0 - 52) (-1074) ≤ 0)]

theorem rnd_natFix (n : Nat) (h : n < 2 ^ 53) : rnd ((n : ℚ)) = (n : ℚ) := by
  have hb := roundF64_toRat ⟨(n : Int), 0⟩
  rw [roundF64_fix_nat n h] at hb
  have ht : (⟨(n : Int), 0⟩ : DyRat).toRat = (n : ℚ) := by
    unfold DyRat.toRat
    norm_num
  rw [ht] at hb
  exact hb.symm

/-! ## `calculateMinAmountOut` (Go `BaseAdapter.calculateMinAmountOut`) -/

/-- Go:
`if slippage <= 0 { return amountOut }`;
`return uint64(float64(amountOut) * (1.0 - slippage))`.
The float64 slippage is a dyadic value; `slippage ≤ 0` is exactly
`slippage.m ≤ 0`. -/
def calculateMinAmountOut (amountOut : Nat) (slippage : DyRat) : Nat :=
  if slippage.m ≤ 0 then amountOut
  else goUint64OfF64 (f64mul (f64ofNat amountOut) (f64sub dyOne slippage))

/-- Spec words (§4.2): `minAmountOut(amountOut, slippage) =
floor(amountOut × (1 − slippage))` computed exactly — a float64 slippage
is a dyadic rational, so the product is an exact dyadic value and its
floor is exact integer arithmetic. -/
def minAmountOutSpec (amountOut : Nat) (slippage : DyRat) : Nat :=
  ((DyRat.mul ⟨(amountOut : Int), 0⟩ (DyRat.sub dyOne slippage)).floor).toNat

/-- Sanity: `minAmountOutSpec` is literally `⌊amountOut × (1 − slippage)⌋`. -/
theorem minAmountOutSpec_eq_floor (n : Nat) (s : DyRat) :
    minAmountOutSpec n s = (⌊(n : ℚ) * (1 - s.toRat)⌋).toNat := by
  unfold minAmountOutSpec
  rw [DyRat.floor_toRat, DyRat.toRat_mul, DyRat.toRat_sub]
  have h1 : (⟨(n : Int), 0⟩ : DyRat).toRat = (n : ℚ) := by
    unfold DyRat.toRat
    norm_num
  have h2 : dyOne.toRat = 1 := by
    unfold dyOne DyRat.toRat
    norm_num
  rw [h1, h2]

/-- Value of the float64 computation inside `calculateMinAmountOut`. -/
theorem calculateMinAmountOut_float_val (n : Nat) (s : DyRat) (hs : 0 < s.m) :
    (f64mul (f64ofNat n) (f64sub dyOne s)).toRat
      = rnd (rnd ((n : ℚ)) * rnd (1 - s.toRat)) := by
  unfold f64mul f64sub f64ofNat
  rw [roundF64_toRat, DyRat.toRat_mul, roundF64_toRat, roundF64_toRat,
    DyRat.toRat_sub]
  have h1 : (⟨(n : Int), 0⟩ : DyRat).toRat = (n : ℚ) := by
    unfold DyRat.toRat
    norm_num
  have h2 : dyOne.toRat = 1 := by
    unfold dyOne DyRat.toRat
    norm_num
  rw [h1, h2]

/-- The heart of the corrected claim C3: for amounts below `2^53` and
slippage in `[0,1]`, the float64 computation never exceeds the amount. -/
theorem calculateMinAmountOut_le (n : Nat) (hn : n < 2 ^ 53) (s : DyRat)
    (h0 : 0 ≤ s.toRat) (h1 : s.toRat ≤ 1) :
    calculateMinAmountOut n s ≤ n := by
  unfold calculateMinAmountOut
  by_cases hs : s.m ≤ 0
  · rw [if_pos hs]
  · rw [if_neg hs]
    push_neg at hs
    have hval := calculateMinAmountOut_float_val n s hs
    have hrn : rnd ((n : ℚ)) = (n : ℚ) := rnd_natFix n hn
    have hT0 : 0 ≤ rnd (1 - s.toRat) := rnd_nonneg _ (by linarith)
    have hT1 : rnd (1 - s.toRat) ≤ 1 := by
      have hm := rnd_mono (1 - s.toRat) 1 (by linarith) (by linarith)
      have hone : rnd (1 : ℚ) = 1 := by
        have := rnd_natFix 1 (by norm_num)
        norm_num at this
        exact this
      rwa [hone] at hm
    have hprod : rnd ((n : ℚ)) * rnd (1 - s.toRat) ≤ (n : ℚ) := by
      rw [hrn]
      calc (n : ℚ) * rnd (1 - s.toRat) ≤ (n : ℚ) * 1 :=
          mul_le_mul_of_nonneg_left hT1 (by positivity)
        _ = (n : ℚ) := mul_one _
    have hprod0 : 0 ≤ rnd ((n : ℚ)) * rnd (1 - s.toRat) := by
      rw [hrn]
      exact mul_nonneg (by positivity) hT0
    have hfinal : (f64mul (f64ofNat n) (f64sub dyOne s)).toRat ≤ (n : ℚ) := by
      rw [hval]
      calc rnd (rnd ((n : ℚ)) * rnd (1 - s.toRat))
          ≤ rnd ((n : ℚ)) := rnd_mono _ _ hprod0 (by rw [hrn] at hprod ⊢; exact hprod)
        _ = (n : ℚ) := hrn
    unfold goUint64OfF64
    rw [DyRat.floor_toRat]
    have hfl : ⌊(f64mul (f64ofNat n) (f64sub dyOne s)).toRat⌋ ≤ (n : ℤ) := by
      calc ⌊(f64mul (f64ofNat n) (f64sub dyOne s)).toRat⌋ ≤ ⌊(n : ℚ)⌋ :=
          Int.floor_le_floor hfinal
        _ = (n : ℤ) := Int.floor_natCast n
    omega

/-- With nonpositive slippage the amount is returned unchanged (the Go
`slippage <= 0` fast path). -/
theorem calculateMinAmountOut_nonpos (n : Nat) (s : DyRat) (h : s.toRat ≤ 0) :
    calculateMinAmountOut n s = n := by
  unfold calculateMinAmountOut
  rw [if_pos]
  by_contra hc
  push_neg at hc
  exact absurd (s.toRat_pos.mpr hc) (not_lt.mpr h)

/-! ## Data model (Go `internal/types`, `internal/config`) -/

/-- Go `types.SwapRequest` (the `time.Time` field `CreatedAt` is omitted:
no modelled code reads it). -/
structure SwapRequest where
  inputMint : String
  outputMint : String
  amountIn : Nat
  userWallet : String
  slippage : DyRat
  priorityFee : Nat
  dexType : String
  id : String
deriving DecidableEq

/-- Go `types.LiquidityRequest` (`CreatedAt` omitted, as above). -/
structure LiquidityRequest where
  tokenAMint : String
  tokenBMint : String
  amountA : Nat
  amountB : Nat
  userWallet : String
  slippage : DyRat
  priorityFee : Nat
  operation : String
  dexType : String
  id : String
deriving DecidableEq

/-- Go `config.DEXConfig` (timestamps omitted). -/
structure DEXConfig where
  name : String
  programID : String
  routerAddress : String
  endpoints : List (String × String)
  enabled : Bool
  timeout : Nat
  retryCount : Nat
deriving DecidableEq

/-- Go `solana.AccountMeta`. -/
structure AccountMeta where
  publicKey : Pubkey
  isSigner : Bool
  isWritable : Bool
deriving DecidableEq

/-- Go `types.InstructionData`. -/
structure InstructionData where
  programID : Pubkey
  accounts : List AccountMeta
  data : List Nat
deriving DecidableEq

/-- The SHA-256 based Solana address derivations, passed in abstractly:
`fpa` is `solana.FindProgramAddress` (seeds, program id ↦ PDA) and `fata`
is `solana.FindAssociatedTokenAddress` (owner, mint ↦ ATA).  Every derived
address is a pure function of these inputs. -/
structure AddressDeriver where
  fpa : List (List Nat) → Pubkey → Option Pubkey
  fata : Pubkey → Pubkey → Option Pubkey

/-- UTF-8 bytes of an ASCII seed string. -/
def strBytes (s : String) : List Nat := s.data.map Char.toNat

/-- The wrapped-native-SOL mint, compared by Go as a string literal. -/
def solMintStr : String := "So11111111111111111111111111111111111111112"

/-- Go `solana.TokenProgramID` (TokenkegQfeZyiNwAJbNbGKPFXCWuBvf9Ss623VQ5DA). -/
def tokenProgramID : Pubkey :=
  ⟨[6, 221, 246, 225, 215, 101, 161, 147, 217, 203, 225, 70, 206, 235, 121, 172,
    28, 180, 133, 237, 95, 91, 55, 145, 58, 140, 245, 133, 126, 255, 0, 169],
   by decide⟩

/-- Go `solana.SystemProgramID` (11111111111111111111111111111111). -/
def systemProgramID : Pubkey := ⟨List.replicate 32 0, by decide⟩

/-- The key `ComputeBudget111111111111111111111111111111`. -/
def computeBudgetProgramID : Pubkey :=
  ⟨[3, 6, 70, 111, 229, 33, 23, 50, 255, 236, 173, 186, 114, 195, 155, 231,
    188, 140, 229, 187, 197, 247, 18, 107, 44, 67, 155, 58, 64, 0, 0, 0],
   by decide⟩

theorem tokenProgramID_str :
    pkString tokenProgramID = "TokenkegQfeZyiNwAJbNbGKPFXCWuBvf9Ss623VQ5DA".data := by
  decide

/-! ## Validation (Go `BaseAdapter.ValidateSwapRequest` /
`validateLiquidityRequest`) -/

/-- Go `ValidateSwapRequest`: only empty mints, zero amount and empty
wallet are rejected (`req.AmountIn <= 0` on `uint64` means `== 0`).
Neither the slippage range nor the key format is checked here. -/
def validateSwapRequest (req : SwapRequest) : Except String Unit :=
  if req.inputMint = "" then .error "input mint is required"
  else if req.outputMint = "" then .error "output mint is required"
  else if req.amountIn = 0 then .error "amount must be positive"
  else if req.userWallet = "" then .error "user wallet is required"
  else .ok ()

/-- Test for `1 < value`, by integer arithmetic on the dyadic representation. -/
def DyRat.bgt1 (d : DyRat) : Bool :=
  if 0 ≤ d.e then 1 < d.m * 2 ^ d.e.toNat else 2 ^ (-d.e).toNat < d.m

theorem DyRat.bgt1_iff (d : DyRat) : d.bgt1 = true ↔ 1 < d.toRat := by
  unfold DyRat.bgt1 DyRat.toRat
  by_cases he : 0 ≤ d.e
  · rw [if_pos he]
    have h1 : (d.m : ℚ) * 2 ^ d.e = ((d.m * 2 ^ d.e.toNat : Int) : ℚ) := by
      push_cast
      congr 1
      rw [← zpow_natCast]
      congr 1
      omega
    rw [h1]
    simp only [decide_eq_true_eq]
    exact_mod_cast Iff.rfl
  · rw [if_neg he]
    have hk : (2:ℚ) ^ d.e = (((2 ^ (-d.e).toNat : Int)) : ℚ)⁻¹ := by
      push_cast
      rw [← zpow_natCast ((2:ℚ)), ← zpow_neg]
      congr 1
      omega
    rw [hk]
    have hpos : (0:ℚ) < ((2 ^ (-d.e).toNat : Int) : ℚ) := by positivity
    rw [← div_eq_mul_inv, one_lt_div hpos]
    simp only [decide_eq_true_eq]
    exact_mod_cast Iff.rfl

/-- Go `validateLiquidityRequest`: operation, nonemptiness, positive
amounts, slippage range (`slippage < 0 || slippage > 1`, on the dyadic
value), and base58 parses of the three keys.  (The Go nil-pointer check
is a pointer-level concern with no counterpart here.) -/
def validateLiquidityRequest (req : LiquidityRequest) : Except String Unit :=
  if ¬(req.operation = "add" ∨ req.operation = "remove") then
    .error "operation must be add or remove"
  else if req.tokenAMint = "" then .error "token A mint is required"
  else if req.tokenBMint = "" then .error "token B mint is required"
  else if req.amountA = 0 then .error "amount A must be greater than 0"
  else if req.amountB = 0 then .error "amount B must be greater than 0"
  else if req.userWallet = "" then .error "user wallet is required"
  else if req.slippage.m < 0 ∨ req.slippage.bgt1 = true then
    .error "slippage must be between 0 and 1"
  else if (pubkeyFromBase58 req.tokenAMint).isNone then
    .error "invalid token A mint address"
  else if (pubkeyFromBase58 req.tokenBMint).isNone then
    .error "invalid token B mint address"
  else if (pubkeyFromBase58 req.userWallet).isNone then
    .error "invalid user wallet address"
  else .ok ()

/-! ## Instruction builders (Go `internal/adapters/raydium.go`,
`pumpfun.go`, `pumpswap.go`) -/

inductive DexRequest where
  | swap (r : SwapRequest)
  | liquidity (r : LiquidityRequest)

/-- Go `solana.PublicKeyFromBase58` with the constant part of the wrapping
error message. -/
def parsePk (msg : String) (s : String) : Except String Pubkey :=
  match pubkeyFromBase58 s with
  | some k => .ok k
  | none => .error msg

/-- Turn an optional derived address into a result, with the constant
part of the wrapping error message. -/
def derived (msg : String) : Option Pubkey → Except String Pubkey
  | some k => .ok k
  | none => .error msg

/-- Go `fmt.Errorf("<prefix>: %w", err)`. -/
def wrapErr (pre : String) : Except String Pubkey → Except String Pubkey
  | .ok a => .ok a
  | .error e => .error (pre ++ ": " ++ e)

/-- Go `RaydiumAdapter.ValidateRequest` type switch. -/
def raydiumValidateRequest : DexRequest → Except String Unit
  | .swap r => validateSwapRequest r
  | .liquidity r => validateLiquidityRequest r

/-- Go `PumpfunAdapter.ValidateRequest`: swap requests get the base
validation; liquidity requests are rejected outright. -/
def pumpfunValidateRequest : DexRequest → Except String Unit
  | .swap r => validateSwapRequest r
  | .liquidity _ => .error "pumpfun does not support liquidity operations"

/-- Go `PumpSwapAdapter.ValidateRequest` type switch. -/
def pumpswapValidateRequest : DexRequest → Except String Unit
  | .swap r => validateSwapRequest r
  | .liquidity r => validateLiquidityRequest r

/-- Raydium swap payload: `[9][amountIn LE8][minAmountOut LE8]`,
17 bytes; the min-out comes from `calculateMinAmountOut(req.AmountIn,
req.Slippage)`. -/
def raydiumBuildSwapInstructionData (req : SwapRequest) : List Nat :=
  9 :: (putUint64LE req.amountIn
    ++ putUint64LE (calculateMinAmountOut req.amountIn req.slippage))

/-- Raydium liquidity payload: `[10][0=add/1=remove][amountA LE8]
[amountB LE8]`, 18 bytes. -/
def raydiumBuildLiquidityInstructionData (req : LiquidityRequest) : List Nat :=
  10 :: (if req.operation = "add" then 0 else 1)
    :: (putUint64LE req.amountA ++ putUint64LE req.amountB)

/-- Pumpfun swap payload: `[6 if inputMint is the SOL mint else 7]
[amountIn LE8][minAmountOut LE8][0 buy / 1 sell]`, 18 bytes. -/
def pumpfunBuildSwapInstructionData (req : SwapRequest) : List Nat :=
  (if req.inputMint = solMintStr then 6 else 7)
    :: (putUint64LE req.amountIn
      ++ putUint64LE (calculateMinAmountOut req.amountIn req.slippage)
      ++ [if req.inputMint = solMintStr then 0 else 1])

/-- PumpSwap swap payload: `[1][amountIn LE8][minAmountOut LE8]`,
17 bytes. -/
def pumpswapBuildSwapInstructionData (req : SwapRequest) : List Nat :=
  1 :: (putUint64LE req.amountIn
    ++ putUint64LE (calculateMinAmountOut req.amountIn req.slippage))

/-- PumpSwap liquidity payload: `[2=add/3=remove][0=add/1=remove]
[amountA LE8][amountB LE8]`, 18 bytes. -/
def pumpswapBuildLiquidityInstructionData (req : LiquidityRequest) : List Nat :=
  (if req.operation = "add" then 2 else 3)
    :: (if req.operation = "add" then 0 else 1)
    :: (putUint64LE req.amountA ++ putUint64LE req.amountB)

/-- Go `RaydiumAdapter.BuildSwapInstruction`. -/
def raydiumBuildSwapInstruction (D : AddressDeriver) (programID : Pubkey)
    (req : SwapRequest) : Except String InstructionData := do
  validateSwapRequest req
  let userWallet ← parsePk "invalid user wallet" req.userWallet
  let inputMint ← parsePk "invalid input mint" req.inputMint
  let outputMint ← parsePk "invalid output mint" req.outputMint
  let userInputTokenAccount ← derived "failed to find input token account"
    (D.fata userWallet inputMint)
  let userOutputTokenAccount ← derived "failed to find output token account"
    (D.fata userWallet outputMint)
  pure { programID := programID
       , accounts :=
          [ ⟨userWallet, true, false⟩
          , ⟨userInputTokenAccount, false, true⟩
          , ⟨userOutputTokenAccount, false, true⟩
          , ⟨inputMint, false, false⟩
          , ⟨outputMint, false, false⟩
          , ⟨tokenProgramID, false, false⟩ ]
       , data := raydiumBuildSwapInstructionData req }

/-- Go `RaydiumAdapter.BuildLiquidityInstruction`. -/
def raydiumBuildLiquidityInstruction (D : AddressDeriver) (programID : Pubkey)
    (req : LiquidityRequest) : Except String InstructionData := do
  validateLiquidityRequest req
  let userWallet ← parsePk "invalid user wallet" req.userWallet
  let tokenAMint ← parsePk "invalid token A mint" req.tokenAMint
  let tokenBMint ← parsePk "invalid token B mint" req.tokenBMint
  let userTokenAAccount ← derived "failed to find token A account"
    (D.fata userWallet tokenAMint)
  let userTokenBAccount ← derived "failed to find token B account"
    (D.fata userWallet tokenBMint)
  pure { programID := programID
       , accounts :=
          [ ⟨userWallet, true, false⟩
          , ⟨userTokenAAccount, false, true⟩
          , ⟨userTokenBAccount, false, true⟩
          , ⟨tokenAMint, false, false⟩
          , ⟨tokenBMint, false, false⟩
          , ⟨tokenProgramID, false, false⟩ ]
       , data := raydiumBuildLiquidityInstructionData req }

/-- Go `PumpfunAdapter.deriveBondingCurveAddress`: PDA of seeds
`["bonding-curve", mint]` under the adapter's program id. -/
def deriveBondingCurveAddress (D : AddressDeriver) (programID : Pubkey)
    (mint : Pubkey) : Option Pubkey :=
  D.fpa [strBytes "bonding-curve", mint.val] programID

/-- Go `PumpfunAdapter.BuildSwapInstruction`. -/
def pumpfunBuildSwapInstruction (D : AddressDeriver) (programID : Pubkey)
    (req : SwapRequest) : Except String InstructionData := do
  validateSwapRequest req
  let userWallet ← parsePk "invalid user wallet" req.userWallet
  let inputMint ← parsePk "invalid input mint" req.inputMint
  let outputMint ← parsePk "invalid output mint" req.outputMint
  let bondingCurve ← derived "failed to derive bonding curve"
    (deriveBondingCurveAddress D programID outputMint)
  let bondingCurveTokenAccount ← derived "failed to derive bonding curve token account"
    (D.fata bondingCurve outputMint)
  let userInputTokenAccount ← derived "failed to find input token account"
    (D.fata userWallet inputMint)
  let userOutputTokenAccount ← derived "failed to find output token account"
    (D.fata userWallet outputMint)
  pure { programID := programID
       , accounts :=
          [ ⟨userWallet, true, false⟩
          , ⟨userInputTokenAccount, false, true⟩
          , ⟨userOutputTokenAccount, false, true⟩
          , ⟨bondingCurve, false, true⟩
          , ⟨bondingCurveTokenAccount, false, true⟩
          , ⟨inputMint, false, false⟩
          , ⟨outputMint, false, true⟩
          , ⟨tokenProgramID, false, false⟩
          , ⟨systemProgramID, false, false⟩ ]
       , data := pumpfunBuildSwapInstructionData req }

/-- Go `PumpfunAdapter.BuildLiquidityInstruction`: always fails —
bonding-curve DEX, no traditional liquidity pools. -/
def pumpfunBuildLiquidityInstruction (req : LiquidityRequest) :
    Except String InstructionData :=
  .error "pumpfun does not support traditional liquidity operations"

/-- Go `PumpSwapAdapter.findPoolAddress`: PDA of seeds `["pool", lower,
higher]` where the two mints are ordered by their base58 strings. -/
def findPoolAddress (D : AddressDeriver) (programID : Pubkey)
    (tokenA tokenB : Pubkey) : Except String Pubkey :=
  match D.fpa
      (if lexLt (pkString tokenA) (pkString tokenB)
        then [strBytes "pool", tokenA.val, tokenB.val]
        else [strBytes "pool", tokenB.val, tokenA.val])
      programID with
  | some a => .ok a
  | none => .error "failed to derive pool address"

/-- Go `PumpSwapAdapter.findOrCreatePoolAddress`: a pass-through to
`findPoolAddress`. -/
def findOrCreatePoolAddress (D : AddressDeriver) (programID : Pubkey)
    (tokenA tokenB : Pubkey) : Except String Pubkey :=
  findPoolAddress D programID tokenA tokenB

/-- Go `PumpSwapAdapter.deriveLPMintAddress`: PDA of seeds
`["lp-mint", pool]`. -/
def deriveLPMintAddress (D : AddressDeriver) (programID : Pubkey)
    (poolAddress : Pubkey) : Except String Pubkey :=
  match D.fpa [strBytes "lp-mint", poolAddress.val] programID with
  | some a => .ok a
  | none => .error "failed to derive LP mint address"

/-- Go `PumpSwapAdapter.BuildSwapInstruction`. -/
def pumpswapBuildSwapInstruction (D : AddressDeriver)
    (programID routerAddress : Pubkey) (req : SwapRequest) :
    Except String InstructionData := do
  validateSwapRequest req
  let userWallet ← parsePk "invalid user wallet" req.userWallet
  let inputMint ← parsePk "invalid input mint" req.inputMint
  let outputMint ← parsePk "invalid output mint" req.outputMint
  let poolAddress ← wrapErr "failed to find pool"
    (findPoolAddress D programID inputMint outputMint)
  let poolInputTokenAccount ← derived "failed to find pool input token account"
    (D.fata poolAddress inputMint)
  let poolOutputTokenAccount ← derived "failed to find pool output token account"
    (D.fata poolAddress outputMint)
  let userInputTokenAccount ← derived "failed to find user input token account"
    (D.fata userWallet inputMint)
  let userOutputTokenAccount ← derived "failed to find user output token account"
    (D.fata userWallet outputMint)
  pure { programID := programID
       , accounts :=
          [ ⟨userWallet, true, false⟩
          , ⟨userInputTokenAccount, false, true⟩
          , ⟨userOutputTokenAccount, false, true⟩
          , ⟨poolAddress, false, true⟩
          , ⟨poolInputTokenAccount, false, true⟩
          , ⟨poolOutputTokenAccount, false, true⟩
          , ⟨routerAddress, false, false⟩
          , ⟨inputMint, false, false⟩
          , ⟨outputMint, false, false⟩
          , ⟨tokenProgramID, false, false⟩ ]
       , data := pumpswapBuildSwapInstructionData req }

/-- Go `PumpSwapAdapter.BuildLiquidityInstruction`. -/
def pumpswapBuildLiquidityInstruction (D : AddressDeriver)
    (programID : Pubkey) (req : LiquidityRequest) :
    Except String InstructionData := do
  validateLiquidityRequest req
  let userWallet ← parsePk "invalid user wallet" req.userWallet
  let tokenAMint ← parsePk "invalid token A mint" req.tokenAMint
  let tokenBMint ← parsePk "invalid token B mint" req.tokenBMint
  let poolAddress ← wrapErr "failed to find/create pool"
    (findOrCreatePoolAddress D programID tokenAMint tokenBMint)
  let lpMint ← wrapErr "failed to derive LP mint"
    (deriveLPMintAddress D programID poolAddress)
  let userTokenAAccount ← derived "failed to find user token A account"
    (D.fata userWallet tokenAMint)
  let userTokenBAccount ← derived "failed to find user token B account"
    (D.fata userWallet tokenBMint)
  let userLPTokenAccount ← derived "failed to find user LP token account"
    (D.fata userWallet lpMint)
  pure { programID := programID
       , accounts :=
          [ ⟨userWallet, true, false⟩
          , ⟨userTokenAAccount, false, true⟩
          , ⟨userTokenBAccount, false, true⟩
          , ⟨userLPTokenAccount, false, true⟩
          , ⟨poolAddress, false, true⟩
          , ⟨lpMint, false, true⟩
          , ⟨tokenAMint, false, false⟩
          , ⟨tokenBMint, false, false⟩
          , ⟨tokenProgramID, false, false⟩ ]
       , data := pumpswapBuildLiquidityInstructionData req }

/-! ## HTTP retry loop (Go `BaseAdapter.makeRequest`) -/

/-- One HTTP attempt either fails at the transport level (`client.Do`
returns an error) or yields a response with a status code. -/
inductive HttpOutcome where
  | transportError
  | response (status : Nat)
deriving DecidableEq

/-- The loop's break condition: `err == nil && resp.StatusCode < 500`. -/
def attemptDone : HttpOutcome → Bool
  | .transportError => false
  | .response st => st < 500

/-- The Go retry loop `for i := 0; i < retryCount; i++ { ... }`, started
at attempt `i` with `remaining` iterations left.  Returns the final
outcome and the list of back-off sleeps (in seconds) performed:
`time.Sleep((i+1) * time.Second)` runs after a failed attempt `i` that is
not the last one.  (With `remaining = 0` the Go code would dereference a
nil response; the result for that case is immaterial.) -/
def retryLoop (attempt : Nat → HttpOutcome) : Nat → Nat → HttpOutcome × List Nat
  | _, 0 => (.transportError, [])
  | i, 1 => (attempt i, [])
  | i, r + 2 =>
      if attemptDone (attempt i) then (attempt i, [])
      else
        ((retryLoop attempt (i + 1) (r + 1)).1,
          (i + 1) :: (retryLoop attempt (i + 1) (r + 1)).2)

/-- Go `makeRequest` (the part after building the request): run the retry
loop from attempt 0; a remaining transport error becomes
`request failed after N retries`, a status `≥ 400` becomes
`request failed with status S`, anything else succeeds with the status. -/
def makeRequest (attempt : Nat → HttpOutcome) (retryCount : Nat) :
    Except String Nat × List Nat :=
  match retryLoop attempt 0 retryCount with
  | (.transportError, sleeps) =>
      (.error ("request failed after " ++ toString retryCount ++ " retries"), sleeps)
  | (.response st, sleeps) =>
      if 400 ≤ st then (.error ("request failed with status " ++ toString st), sleeps)
      else (.ok st, sleeps)

theorem retryLoop_sleeps_range (attempt : Nat → HttpOutcome) :
    ∀ r i, (retryLoop attempt i r).2
      = List.range' (i + 1) (retryLoop attempt i r).2.length := by
  intro r
  induction r with
  | zero => intro i; rfl
  | succ r ih =>
      intro i
      cases r with
      | zero => rfl
      | succ r =>
          by_cases hdone : attemptDone (attempt i)
          · simp [retryLoop, hdone]
          · simp only [retryLoop, hdone, if_false]
            rw [ih (i + 1)]
            simp [List.range']

theorem retryLoop_sleeps_lt (attempt : Nat → HttpOutcome) :
    ∀ r i, 1 ≤ r → (retryLoop attempt i r).2.length < r := by
  intro r
  induction r with
  | zero => intro i h; omega
  | succ r ih =>
      intro i _
      cases r with
      | zero => simp [retryLoop]
      | succ r =>
          by_cases hdone : attemptDone (attempt i)
          · simp [retryLoop, hdone]
          · simp only [retryLoop, hdone, Bool.false_eq_true, if_false, List.length_cons]
            have := ih (i + 1) (by omega)
            omega

theorem retryLoop_first_done (attempt : Nat → HttpOutcome) :
    ∀ r i j, j < r → (∀ m, m < j → attemptDone (attempt (i + m)) = false) →
      attemptDone (attempt (i + j)) = true →
      retryLoop attempt i r = (attempt (i + j), List.range' (i + 1) j) := by
  intro r
  induction r with
  | zero => intro i j hj _ _; omega
  | succ r ih =>
      intro i j hj hbefore hdone
      cases hj0 : j with
      | zero =>
          subst hj0
          simp only [Nat.add_zero] at hdone
          cases r with
          | zero => simp [retryLoop]
          | succ r => simp [retryLoop, hdone]
      | succ j' =>
          subst hj0
          have hfirst : attemptDone (attempt i) = false := by
            have := hbefore 0 (by omega)
            simpa using this
          cases r with
          | zero => omega
          | succ r =>
              simp only [retryLoop, hfirst, if_false]
              have hrec := ih (i + 1) j' (by omega)
                (fun m hm => by
                  have := hbefore (m + 1) (by omega)
                  rw [show i + 1 + m = i + (m + 1) by omega]
                  exact this)
                (by rw [show i + 1 + j' = i + (j' + 1) by omega]; exact hdone)
              rw [hrec]
              show ((attempt (i + 1 + j'), (i+1) :: List.range' (i + 1 + 1) j')
                  : HttpOutcome × List Nat)
                = (attempt (i + (j' + 1)), List.range' (i + 1) (j' + 1))
              rw [show i + 1 + j' = i + (j' + 1) by omega]
              rw [List.range'_succ]

theorem retryLoop_all_transport (attempt : Nat → HttpOutcome) :
    ∀ r i, 1 ≤ r → (∀ m, m < r → attempt (i + m) = .transportError) →
      (retryLoop attempt i r).1 = .transportError := by
  intro r
  induction r with
  | zero => intro i h; omega
  | succ r ih =>
      intro i _ hall
      cases r with
      | zero =>
          have := hall 0 (by omega)
          simpa [retryLoop] using this
      | succ r =>
          have hfirst : attempt i = .transportError := by
            have := hall 0 (by omega)
            simpa using this
          have hdone : attemptDone (attempt i) = false := by
            rw [hfirst]; rfl
          simp only [retryLoop, hdone, if_false]
          exact ih (i + 1) (by omega)
            (fun m hm => by
              rw [show i + 1 + m = i + (m + 1) by omega]
              exact hall (m + 1) (by omega))

/-! ## Adapters, constructors, registry, transaction service
(Go `internal/adapters`, `internal/services`) -/

/-- The three concrete adapter variants with their parsed keys: Raydium
and Pumpfun hold a program id; PumpSwap also holds a router address.
Each also keeps its name and config (from `NewBaseAdapter(cfg.Name, cfg)`). -/
inductive Adapter where
  | raydium (name : String) (cfg : DEXConfig) (programID : Pubkey)
  | pumpfun (name : String) (cfg : DEXConfig) (programID : Pubkey)
  | pumpswap (name : String) (cfg : DEXConfig) (programID routerAddress : Pubkey)

/-- Go `NewRaydiumAdapter`: parse the configured program id or fail with
`invalid program ID`. -/
def newRaydiumAdapter (cfg : DEXConfig) : Except String Adapter :=
  match pubkeyFromBase58 cfg.programID with
  | none => .error "invalid program ID"
  | some pid => .ok (.raydium cfg.name cfg pid)

/-- Go `NewPumpfunAdapter`. -/
def newPumpfunAdapter (cfg : DEXConfig) : Except String Adapter :=
  match pubkeyFromBase58 cfg.programID with
  | none => .error "invalid program ID"
  | some pid => .ok (.pumpfun cfg.name cfg pid)

/-- Go `NewPumpSwapAdapter`: parses the program id, then the router
address. -/
def newPumpSwapAdapter (cfg : DEXConfig) : Except String Adapter :=
  match pubkeyFromBase58 cfg.programID with
  | none => .error "invalid program ID"
  | some pid =>
      match pubkeyFromBase58 cfg.routerAddress with
      | none => .error "invalid router address"
      | some router => .ok (.pumpswap cfg.name cfg pid router)

/-- Dispatch `ValidateRequest` through the interface. -/
def adapterValidateRequest : Adapter → DexRequest → Except String Unit
  | .raydium _ _ _, r => raydiumValidateRequest r
  | .pumpfun _ _ _, r => pumpfunValidateRequest r
  | .pumpswap _ _ _ _, r => pumpswapValidateRequest r

/-- Dispatch `BuildSwapInstruction` through the interface. -/
def adapterBuildSwapInstruction (D : AddressDeriver) :
    Adapter → SwapRequest → Except String InstructionData
  | .raydium _ _ pid, req => raydiumBuildSwapInstruction D pid req
  | .pumpfun _ _ pid, req => pumpfunBuildSwapInstruction D pid req
  | .pumpswap _ _ pid router, req => pumpswapBuildSwapInstruction D pid router req

/-- Dispatch `BuildLiquidityInstruction` through the interface. -/
def adapterBuildLiquidityInstruction (D : AddressDeriver) :
    Adapter → LiquidityRequest → Except String InstructionData
  | .raydium _ _ pid, req => raydiumBuildLiquidityInstruction D pid req
  | .pumpfun _ _ _, req => pumpfunBuildLiquidityInstruction req
  | .pumpswap _ _ pid _, req => pumpswapBuildLiquidityInstruction D pid req

/-- Go `AdapterRegistry`: a `map[string]DEXAdapter`, modelled as the
insertion sequence (later `Register` calls overwrite earlier ones, so
lookups search the reversed list). -/
def Registry := List (String × Adapter)

/-- Go `Registry.Register`: insert, silently overwriting. -/
def registerAdapter (r : Registry) (name : String) (a : Adapter) : Registry :=
  List.concat r (name, a)

/-- Go `Registry.Get`: the most recently registered adapter under the
name, or `adapter not found: <name>`. -/
def registryGet (r : Registry) (name : String) : Except String Adapter :=
  match (List.reverse r).lookup name with
  | some a => .ok a
  | none => .error ("adapter not found: " ++ name)

/-- Go `config.Config`, restricted to the fields the transaction service
reads. -/
structure Config where
  dexes : List DEXConfig

/-- The body of the registration loop in Go `NewTransactionService`:
disabled entries are skipped; the name selects the constructor; a
constructor error is silently skipped. -/
def registerDexStep (reg : Registry) (dexCfg : DEXConfig) : Registry :=
  if dexCfg.enabled = false then reg
  else if dexCfg.name = "raydium" then
    match newRaydiumAdapter dexCfg with
    | .ok a => registerAdapter reg dexCfg.name a
    | .error _ => reg
  else if dexCfg.name = "pumpfun" then
    match newPumpfunAdapter dexCfg with
    | .ok a => registerAdapter reg dexCfg.name a
    | .error _ => reg
  else if dexCfg.name = "pumpswap" then
    match newPumpSwapAdapter dexCfg with
    | .ok a => registerAdapter reg dexCfg.name a
    | .error _ => reg
  else reg

/-- Go `NewTransactionService`'s adapter registry: fold the registration
loop over the configured DEX entries.  The construction is total — no
error path exists. -/
def newTransactionServiceRegistry (cfg : Config) : Registry :=
  cfg.dexes.foldl registerDexStep []

/-- The adapter (if any) that the registration loop would register for a
given config entry. -/
def adapterFor (dexCfg : DEXConfig) : Option Adapter :=
  if dexCfg.enabled = false then none
  else if dexCfg.name = "raydium" then (newRaydiumAdapter dexCfg).toOption
  else if dexCfg.name = "pumpfun" then (newPumpfunAdapter dexCfg).toOption
  else if dexCfg.name = "pumpswap" then (newPumpSwapAdapter dexCfg).toOption
  else none

/-! ## Transaction assembly (Go `TransactionService`) -/

/-- The ledger RPC calls the encode path consumes, as environment data:
`GetRecentBlockhash` either fails or yields a blockhash, and
`GetFeeForMessage` either fails, yields a null value, or yields a fee. -/
structure RpcEnv where
  recentBlockhash : Option (List Nat)
  feeForMessage : Option (Option Nat)

/-- A built (unsigned) transaction: the instruction list, the fee payer
and the blockhash it is bound to.  Its binary serialization is abstract
(`marshal` below). -/
structure BuiltTx where
  instructions : List InstructionData
  blockhash : List Nat
  payer : Pubkey

/-- Go `createPriorityFeeInstruction`: 9 bytes
`[3][priorityFee LE8]` for the compute-budget program, no accounts. -/
def createPriorityFeeInstruction (priorityFee : Nat) : InstructionData :=
  { programID := computeBudgetProgramID
  , accounts := []
  , data := 3 :: toBytesLE 8 priorityFee }

/-- Go `TransactionService.buildTransaction`: parse the payer, fetch the
latest blockhash, prepend the priority-fee instruction when
`priorityFee > 0`, and assemble the transaction. -/
def buildTransaction (env : RpcEnv) (instructions : List InstructionData)
    (payerAddress : String) (priorityFee : Nat) : Except String BuiltTx :=
  match pubkeyFromBase58 payerAddress with
  | none => .error "invalid payer address"
  | some payer =>
      match env.recentBlockhash with
      | none => .error "failed to get recent blockhash"
      | some bh =>
          .ok { instructions :=
                  if priorityFee > 0 then
                    createPriorityFeeInstruction priorityFee :: instructions
                  else instructions
              , blockhash := bh
              , payer := payer }

/-- Go `TransactionService.estimateTransactionFee`: the RPC
fee-for-message call; a transport error or a null value is an error. -/
def estimateTransactionFee (env : RpcEnv) : Except String Nat :=
  match env.feeForMessage with
  | none => .error "failed to get fee estimate"
  | some none => .error "fee estimation returned null"
  | some (some v) => .ok v

/-- Standard base64 alphabet. -/
def b64Alphabet : List Char :=
  "ABCDEFGHIJKLMNOPQRSTUVWXYZabcdefghijklmnopqrstuvwxyz0123456789+/".data

def b64Char (n : Nat) : Char := b64Alphabet.getD n 'A'

/-- Standard base64 with `=` padding (Go `base64.StdEncoding`). -/
def base64Encode : List Nat → List Char
  | [] => []
  | [a] => [b64Char (a / 4), b64Char (a % 4 * 16), '=', '=']
  | [a, b] => [b64Char (a / 4), b64Char (a % 4 * 16 + b / 16), b64Char (b % 16 * 4), '=']
  | a :: b :: c :: rest =>
      b64Char (a / 4) :: b64Char (a % 4 * 16 + b / 16)
        :: b64Char (b % 16 * 4 + c / 64) :: b64Char (c % 64) :: base64Encode rest

/-- Go `types.TransactionResponse`. -/
structure TransactionResponse where
  success : Bool
  transaction : String
  estimatedFee : Nat
  requestID : String
  error : String
deriving DecidableEq

/-- Go `TransactionService.EncodeSwapTransaction`.  `marshal` stands for
`Transaction.MarshalBinary`; `freshId` is the generated `uuid` written
into `req.ID`.  Every failure is reported in the response with
`success=false`, never as a Go error.  A fee-estimation failure falls
back to the documented default of 5000 lamports and does not fail the
build. -/
def encodeSwapTransaction (env : RpcEnv) (D : AddressDeriver)
    (marshal : BuiltTx → Except String (List Nat)) (reg : Registry)
    (freshId : String) (req : SwapRequest) : TransactionResponse :=
  match registryGet reg req.dexType with
  | .error _ =>
      ⟨false, "", 0, "", "DEX adapter not found: " ++ req.dexType⟩
  | .ok adapter =>
      match adapterValidateRequest adapter (.swap req) with
      | .error e => ⟨false, "", 0, "", "Invalid request: " ++ e⟩
      | .ok _ =>
          match adapterBuildSwapInstruction D adapter req with
          | .error e => ⟨false, "", 0, "", "Failed to build swap instruction: " ++ e⟩
          | .ok instructionData =>
              match buildTransaction env [instructionData] req.userWallet req.priorityFee with
              | .error e => ⟨false, "", 0, "", "Failed to build transaction: " ++ e⟩
              | .ok tx =>
                  match marshal tx with
                  | .error e => ⟨false, "", 0, "", "Failed to serialize transaction: " ++ e⟩
                  | .ok txData =>
                      ⟨true, String.mk (base64Encode txData),
                        (match estimateTransactionFee env with
                          | .ok f => f
                          | .error _ => 5000),
                        freshId, ""⟩

/-- Go `TransactionService.EncodeLiquidityTransaction` (same pipeline
with the liquidity builder). -/
def encodeLiquidityTransaction (env : RpcEnv) (D : AddressDeriver)
    (marshal : BuiltTx → Except String (List Nat)) (reg : Registry)
    (freshId : String) (req : LiquidityRequest) : TransactionResponse :=
  match registryGet reg req.dexType with
  | .error _ =>
      ⟨false, "", 0, "", "DEX adapter not found: " ++ req.dexType⟩
  | .ok adapter =>
      match adapterValidateRequest adapter (.liquidity req) with
      | .error e => ⟨false, "", 0, "", "Invalid request: " ++ e⟩
      | .ok _ =>
          match adapterBuildLiquidityInstruction D adapter req with
          | .error e => ⟨false, "", 0, "", "Failed to build liquidity instruction: " ++ e⟩
          | .ok instructionData =>
              match buildTransaction env [instructionData] req.userWallet req.priorityFee with
              | .error e => ⟨false, "", 0, "", "Failed to build transaction: " ++ e⟩
              | .ok tx =>
                  match marshal tx with
                  | .error e => ⟨false, "", 0, "", "Failed to serialize transaction: " ++ e⟩
                  | .ok txData =>
                      ⟨true, String.mk (base64Encode txData),
                        (match estimateTransactionFee env with
                          | .ok f => f
                          | .error _ => 5000),
                        freshId, ""⟩

/-! ## Inversion lemmas: the exact shape of every successfully built
instruction -/

theorem except_bind_ok {A B : Type} (x : Except String A) (f : A → Except String B)
    (b : B) : (x >>= f) = .ok b ↔ ∃ a, x = .ok a ∧ f a = .ok b := by
  cases x <;> simp [Bind.bind, Except.bind]

theorem parsePk_ok {msg s : String} {k : Pubkey} :
    parsePk msg s = .ok k ↔ pubkeyFromBase58 s = some k := by
  unfold parsePk
  cases pubkeyFromBase58 s <;> simp

theorem derived_ok {msg : String} {o : Option Pubkey} {k : Pubkey} :
    derived msg o = .ok k ↔ o = some k := by
  unfold derived
  cases o <;> simp

theorem wrapErr_ok {pre : String} {x : Except String Pubkey} {k : Pubkey} :
    wrapErr pre x = .ok k ↔ x = .ok k := by
  unfold wrapErr
  cases x <;> simp

theorem raydiumBuildSwapInstruction_ok_shape (D : AddressDeriver) (pid : Pubkey)
    (req : SwapRequest) (i : InstructionData)
    (h : raydiumBuildSwapInstruction D pid req = .ok i) :
    ∃ w a b uIn uOut,
      pubkeyFromBase58 req.userWallet = some w ∧
      i = { programID := pid
          , accounts :=
              [ ⟨w, true, false⟩, ⟨uIn, false, true⟩, ⟨uOut, false, true⟩
              , ⟨a, false, false⟩, ⟨b, false, false⟩
              , ⟨tokenProgramID, false, false⟩ ]
          , data := raydiumBuildSwapInstructionData req } := by
  unfold raydiumBuildSwapInstruction at h
  obtain ⟨u, hval, h⟩ := (except_bind_ok _ _ _).mp h
  obtain ⟨w, hw, h⟩ := (except_bind_ok _ _ _).mp h
  obtain ⟨a, ha, h⟩ := (except_bind_ok _ _ _).mp h
  obtain ⟨b, hb, h⟩ := (except_bind_ok _ _ _).mp h
  obtain ⟨uIn, hIn, h⟩ := (except_bind_ok _ _ _).mp h
  obtain ⟨uOut, hOut, h⟩ := (except_bind_ok _ _ _).mp h
  rw [parsePk_ok] at hw
  injection h with h
  exact ⟨w, a, b, uIn, uOut, hw, h.symm⟩

theorem raydiumBuildLiquidityInstruction_ok_shape (D : AddressDeriver)
    (pid : Pubkey) (req : LiquidityRequest) (i : InstructionData)
    (h : raydiumBuildLiquidityInstruction D pid req = .ok i) :
    ∃ w a b uA uB,
      pubkeyFromBase58 req.userWallet = some w ∧
      i = { programID := pid
          , accounts :=
              [ ⟨w, true, false⟩, ⟨uA, false, true⟩, ⟨uB, false, true⟩
              , ⟨a, false, false⟩, ⟨b, false, false⟩
              , ⟨tokenProgramID, false, false⟩ ]
          , data := raydiumBuildLiquidityInstructionData req } := by
  unfold raydiumBuildLiquidityInstruction at h
  obtain ⟨u, hval, h⟩ := (except_bind_ok _ _ _).mp h
  obtain ⟨w, hw, h⟩ := (except_bind_ok _ _ _).mp h
  obtain ⟨a, ha, h⟩ := (except_bind_ok _ _ _).mp h
  obtain ⟨b, hb, h⟩ := (except_bind_ok _ _ _).mp h
  obtain ⟨uA, hA, h⟩ := (except_bind_ok _ _ _).mp h
  obtain ⟨uB, hB, h⟩ := (except_bind_ok _ _ _).mp h
  rw [parsePk_ok] at hw
  injection h with h
  exact ⟨w, a, b, uA, uB, hw, h.symm⟩

theorem pumpfunBuildSwapInstruction_ok_shape (D : AddressDeriver)
    (pid : Pubkey) (req : SwapRequest) (i : InstructionData)
    (h : pumpfunBuildSwapInstruction D pid req = .ok i) :
    ∃ w a b bc bcta uIn uOut,
      pubkeyFromBase58 req.userWallet = some w ∧
      i = { programID := pid
          , accounts :=
              [ ⟨w, true, false⟩, ⟨uIn, false, true⟩, ⟨uOut, false, true⟩
              , ⟨bc, false, true⟩, ⟨bcta, false, true⟩
              , ⟨a, false, false⟩, ⟨b, false, true⟩
              , ⟨tokenProgramID, false, false⟩
              , ⟨systemProgramID, false, false⟩ ]
          , data := pumpfunBuildSwapInstructionData req } := by
  unfold pumpfunBuildSwapInstruction at h
  obtain ⟨u, hval, h⟩ := (except_bind_ok _ _ _).mp h
  obtain ⟨w, hw, h⟩ := (except_bind_ok _ _ _).mp h
  obtain ⟨a, ha, h⟩ := (except_bind_ok _ _ _).mp h
  obtain ⟨b, hb, h⟩ := (except_bind_ok _ _ _).mp h
  obtain ⟨bc, hbc, h⟩ := (except_bind_ok _ _ _).mp h
  obtain ⟨bcta, hbcta, h⟩ := (except_bind_ok _ _ _).mp h
  obtain ⟨uIn, hIn, h⟩ := (except_bind_ok _ _ _).mp h
  obtain ⟨uOut, hOut, h⟩ := (except_bind_ok _ _ _).mp h
  rw [parsePk_ok] at hw
  injection h with h
  exact ⟨w, a, b, bc, bcta, uIn, uOut, hw, h.symm⟩

theorem pumpswapBuildSwapInstruction_ok_shape (D : AddressDeriver)
    (pid router : Pubkey) (req : SwapRequest) (i : InstructionData)
    (h : pumpswapBuildSwapInstruction D pid router req = .ok i) :
    ∃ w a b pool pIn pOut uIn uOut,
      pubkeyFromBase58 req.userWallet = some w ∧
      i = { programID := pid
          , accounts :=
              [ ⟨w, true, false⟩, ⟨uIn, false, true⟩, ⟨uOut, false, true⟩
              , ⟨pool, false, true⟩, ⟨pIn, false, true⟩, ⟨pOut, false, true⟩
              , ⟨router, false, false⟩
              , ⟨a, false, false⟩, ⟨b, false, false⟩
              , ⟨tokenProgramID, false, false⟩ ]
          , data := pumpswapBuildSwapInstructionData req } := by
  unfold pumpswapBuildSwapInstruction at h
  obtain ⟨u, hval, h⟩ := (except_bind_ok _ _ _).mp h
  obtain ⟨w, hw, h⟩ := (except_bind_ok _ _ _).mp h
  obtain ⟨a, ha, h⟩ := (except_bind_ok _ _ _).mp h
  obtain ⟨b, hb, h⟩ := (except_bind_ok _ _ _).mp h
  obtain ⟨pool, hpool, h⟩ := (except_bind_ok _ _ _).mp h
  obtain ⟨pIn, hpIn, h⟩ := (except_bind_ok _ _ _).mp h
  obtain ⟨pOut, hpOut, h⟩ := (except_bind_ok _ _ _).mp h
  obtain ⟨uIn, hIn, h⟩ := (except_bind_ok _ _ _).mp h
  obtain ⟨uOut, hOut, h⟩ := (except_bind_ok _ _ _).mp h
  rw [parsePk_ok] at hw
  injection h with h
  exact ⟨w, a, b, pool, pIn, pOut, uIn, uOut, hw, h.symm⟩

theorem pumpswapBuildLiquidityInstruction_ok_shape (D : AddressDeriver)
    (pid : Pubkey) (req : LiquidityRequest) (i : InstructionData)
    (h : pumpswapBuildLiquidityInstruction D pid req = .ok i) :
    ∃ w a b pool lp uA uB uLP,
      pubkeyFromBase58 req.userWallet = some w ∧
      i = { programID := pid
          , accounts :=
              [ ⟨w, true, false⟩, ⟨uA, false, true⟩, ⟨uB, false, true⟩
              , ⟨uLP, false, true⟩, ⟨pool, false, true⟩, ⟨lp, false, true⟩
              , ⟨a, false, false⟩, ⟨b, false, false⟩
              , ⟨tokenProgramID, false, false⟩ ]
          , data := pumpswapBuildLiquidityInstructionData req } := by
  unfold pumpswapBuildLiquidityInstruction at h
  obtain ⟨u, hval, h⟩ := (except_bind_ok _ _ _).mp h
  obtain ⟨w, hw, h⟩ := (except_bind_ok _ _ _).mp h
  obtain ⟨a, ha, h⟩ := (except_bind_ok _ _ _).mp h
  obtain ⟨b, hb, h⟩ := (except_bind_ok _ _ _).mp h
  obtain ⟨pool, hpool, h⟩ := (except_bind_ok _ _ _).mp h
  obtain ⟨lp, hlp, h⟩ := (except_bind_ok _ _ _).mp h
  obtain ⟨uA, hA, h⟩ := (except_bind_ok _ _ _).mp h
  obtain ⟨uB, hB, h⟩ := (except_bind_ok _ _ _).mp h
  obtain ⟨uLP, hLP, h⟩ := (except_bind_ok _ _ _).mp h
  rw [parsePk_ok] at hw
  injection h with h
  exact ⟨w, a, b, pool, lp, uA, uB, uLP, hw, h.symm⟩

theorem lexLt_asymm : ∀ x y : List Char,
    lexLt x y = true → lexLt y x = false := by
  intro x
  induction x with
  | nil => intro y hxy; cases y with
      | nil => simp [lexLt] at hxy
      | cons b bs => simp [lexLt]
  | cons a as ih =>
      intro y hxy
      cases y with
      | nil => simp [lexLt] at hxy
      | cons b bs =>
          by_cases hab : a < b
          · have hba : ¬ b < a := fun hba => absurd (lt_trans hab hba) (lt_irrefl a)
            simp [lexLt, hab, hba]
          · by_cases hba : b < a
            · simp [lexLt, hab, hba] at hxy
            · simp [lexLt, hab, hba] at hxy ⊢
              exact ih bs hxy

/-! ## Concrete fixtures for witnesses and counterexamples -/

set_option maxRecDepth 100000

/-- A constant address deriver: every PDA / ATA lookup succeeds with the
all-zero key.  (The claims under test are independent of the actual
SHA-256 derivation.) -/
def constDeriver : AddressDeriver :=
  ⟨fun _ _ => some systemProgramID, fun _ _ => some systemProgramID⟩

/-- The USDC mint string used throughout the repo's tests. -/
def usdcMintStr : String := "EPjFWdd5AufqSSqeM2qN1xzybapC8G4wEGGkZwyTDt1v"

/-- A valid wallet address (the all-zero key, 32 `'1'` characters). -/
def zeroWalletStr : String := "11111111111111111111111111111111"

/-! ## Claim C5 -/

/-- C5: for every pair of mint addresses, the PumpSwap pool-address
derivation is commutative: `findPoolAddress(A, B) = findPoolAddress(B, A)`.
The seeds are `["pool", lower, higher]` with the two mints ordered by
their base58 strings, and the derived address is a pure function of the
seeds and the program id. -/
theorem c5_findPoolAddress_comm (D : AddressDeriver) (pid A B : Pubkey) :
    findPoolAddress D pid A B = findPoolAddress D pid B A := by
  unfold findPoolAddress
  by_cases hAB : lexLt (pkString A) (pkString B) = true
  · have hBA := lexLt_asymm _ _ hAB
    rw [if_pos hAB, if_neg (by simp [hBA])]
  · by_cases hBA : lexLt (pkString B) (pkString A) = true
    · rw [if_neg hAB, if_pos hBA]
    · have hx : lexLt (pkString A) (pkString B) = false := by simpa using hAB
      have hy : lexLt (pkString B) (pkString A) = false := by simpa using hBA
      have hs : pkString A = pkString B := lexLt_antisymm _ _ hx hy
      have : A = B := pkString_inj A B hs
      subst this
      rfl

/-! ## Claim C4 -/

/-- C4: the Pumpfun adapter's `BuildLiquidityInstruction` always fails
with the fixed unsupported-operation error (naming both the DEX and the
liquidity operation), never produces an instruction, and the Pumpfun
`ValidateRequest` rejects every liquidity request with an error that
likewise names the DEX and the operation. -/
theorem c4_pumpfun_liquidity_unsupported :
    (∀ req : LiquidityRequest,
      pumpfunBuildLiquidityInstruction req
        = .error "pumpfun does not support traditional liquidity operations")
    ∧ (∀ req : LiquidityRequest,
      (pumpfunBuildLiquidityInstruction req).toOption = none)
    ∧ (∀ req : LiquidityRequest,
      pumpfunValidateRequest (.liquidity req)
        = .error "pumpfun does not support liquidity operations")
    ∧ (∃ pre mid post : String,
      "pumpfun does not support traditional liquidity operations"
        = pre ++ ("pumpfun" ++ (mid ++ ("liquidity" ++ post))))
    ∧ (∃ pre mid post : String,
      "pumpfun does not support liquidity operations"
        = pre ++ ("pumpfun" ++ (mid ++ ("liquidity" ++ post)))) := by
  refine ⟨fun _ => rfl, fun _ => rfl, fun _ => rfl,
    ⟨"", " does not support traditional ", " operations", by rfl⟩,
    ⟨"", " does not support ", " operations", by rfl⟩⟩

/-! ## Claim C2 -/

/-- A swap request with a malformed (non-base58) input mint AND an
out-of-range slippage of `1.5` — exactly the inputs the repo's own
`TestBaseAdapterValidation` expects to be rejected. -/
def c2BadReq : SwapRequest :=
  ⟨"invalid-mint-address", usdcMintStr, 1000000000, zeroWalletStr,
   ⟨3, -1⟩, 0, "raydium", "test-1"⟩

/-- C2: the spec (and the repo's own test `TestBaseAdapterValidation`)
say validation rejects slippage outside `[0,1]` and malformed key
strings, but `BaseAdapter.ValidateSwapRequest` — used by all three
adapters for swap requests — checks neither: a request with slippage
`1.5` (a dyadic `3·2⁻¹ > 1`) and a mint string that does not even
base58-decode passes validation in all three adapters. -/
theorem c2_validateSwapRequest_gap :
    validateSwapRequest c2BadReq = .ok ()
    ∧ raydiumValidateRequest (.swap c2BadReq) = .ok ()
    ∧ pumpfunValidateRequest (.swap c2BadReq) = .ok ()
    ∧ pumpswapValidateRequest (.swap c2BadReq) = .ok ()
    ∧ 1 < c2BadReq.slippage.toRat
    ∧ pubkeyFromBase58 c2BadReq.inputMint = none := by
  refine ⟨rfl, rfl, rfl, rfl, by norm_num [c2BadReq, DyRat.toRat], by decide⟩

/-! ## Claim C3 -/

/-- Counterexample to C3: at `amountOut = 2^63 − 1` and the dyadic
slippage `2⁻⁶⁰` (a value strictly inside `[0,1]`), the Go float64
computation `uint64(float64(amountOut) * (1.0 - slippage))` rounds
`float64(amountOut)` up to `2^63`, yielding `9223372036854775808 =
2^63`, while the exact value `⌊amountOut × (1 − slippage)⌋` is
`9223372036854775799 = 2^63 − 9`; the code's result even exceeds
`amountOut` itself, contradicting both the exact-floor equation and the
`≤ amountOut` bound claimed for slippage in `[0,1]`. -/
theorem c3_calculateMinAmountOut_counterexample :
    calculateMinAmountOut (2 ^ 63 - 1) ⟨1, -60⟩ = 9223372036854775808
    ∧ minAmountOutSpec (2 ^ 63 - 1) ⟨1, -60⟩ = 9223372036854775799
    ∧ 2 ^ 63 - 1 < calculateMinAmountOut (2 ^ 63 - 1) ⟨1, -60⟩
    ∧ 0 ≤ (⟨1, -60⟩ : DyRat).toRat
    ∧ (⟨1, -60⟩ : DyRat).toRat ≤ 1 := by
  refine ⟨by decide, by decide, by decide,
    by norm_num [DyRat.toRat], by norm_num [DyRat.toRat]⟩

/-- C3 (amended): `calculateMinAmountOut` returns `amountOut` unchanged
whenever the (real value of the) slippage is `≤ 0` — in particular at
slippage `= 0` — and for amounts below `2^53` (where `float64(amountOut)`
is exact) with slippage in `[0,1]` the result never exceeds `amountOut`.
The exact-floor equation and the unconditional `≤ amountOut` bound of
the original claim fail for larger amounts (see the counterexample). -/
theorem c3_calculateMinAmountOut_amended (n : Nat) (s : DyRat) :
    (s.toRat ≤ 0 → calculateMinAmountOut n s = n)
    ∧ (s.toRat = 0 → calculateMinAmountOut n s = n)
    ∧ (n < 2 ^ 53 → 0 ≤ s.toRat → s.toRat ≤ 1 → calculateMinAmountOut n s ≤ n) :=
  ⟨calculateMinAmountOut_nonpos n s,
   fun h => calculateMinAmountOut_nonpos n s (le_of_eq h),
   fun h1 h2 h3 => calculateMinAmountOut_le n h1 s h2 h3⟩

theorem c3_calculateMinAmountOut_amended_witness :
    calculateMinAmountOut 1000000 ⟨-1, -1⟩ = 1000000
    ∧ calculateMinAmountOut 1000000 ⟨0, 0⟩ = 1000000
    ∧ calculateMinAmountOut 1000000 ⟨1, -1⟩ ≤ 1000000 :=
  ⟨(c3_calculateMinAmountOut_amended 1000000 ⟨-1, -1⟩).1
      (by norm_num [DyRat.toRat]),
   (c3_calculateMinAmountOut_amended 1000000 ⟨0, 0⟩).2.1
      (by norm_num [DyRat.toRat]),
   (c3_calculateMinAmountOut_amended 1000000 ⟨1, -1⟩).2.2
      (by norm_num) (by norm_num [DyRat.toRat]) (by norm_num [DyRat.toRat])⟩

/-! ## Claim C6 -/

/-- C6: the `makeRequest` retry loop.  For any attempt behaviour and any
positive retry budget: the back-off sleeps are exactly `1, 2, 3, …`
seconds (attempt index + 1, linearly increasing) and strictly fewer than
`retryCount`; a first attempt that succeeds or returns a client-error
status (`< 500`, including 4xx) short-circuits the loop with no sleeps;
when every attempt fails at the transport level the loop exhausts all
retries and surfaces `request failed after N retries`; and a 4xx
response is not retried but surfaces `request failed with status S`. -/
theorem c6_makeRequest_retry (attempt : Nat → HttpOutcome) (rc : Nat)
    (hrc : 1 ≤ rc) :
    ((retryLoop attempt 0 rc).2
        = List.range' 1 (retryLoop attempt 0 rc).2.length
      ∧ (retryLoop attempt 0 rc).2.length < rc)
    ∧ (attemptDone (attempt 0) = true → retryLoop attempt 0 rc = (attempt 0, []))
    ∧ ((∀ m, m < rc → attempt m = .transportError) →
        makeRequest attempt rc
          = (.error ("request failed after " ++ toString rc ++ " retries"),
             (retryLoop attempt 0 rc).2))
    ∧ (∀ st, attempt 0 = .response st → 400 ≤ st → st < 500 →
        makeRequest attempt rc
          = (.error ("request failed with status " ++ toString st), [])) := by
  refine ⟨⟨retryLoop_sleeps_range attempt rc 0, retryLoop_sleeps_lt attempt rc 0 hrc⟩,
    ?_, ?_, ?_⟩
  · intro hdone
    have h := retryLoop_first_done attempt rc 0 0 (by omega)
      (fun m hm => absurd hm (Nat.not_lt_zero m)) (by simpa using hdone)
    simpa using h
  · intro hall
    have h1 := retryLoop_all_transport attempt rc 0 hrc
      (fun m hm => by simpa using hall m hm)
    have hpair : retryLoop attempt 0 rc
        = (.transportError, (retryLoop attempt 0 rc).2) := by
      rw [← h1]
    unfold makeRequest
    rw [hpair]
  · intro st hst h400 h500
    have hdone : attemptDone (attempt 0) = true := by
      rw [hst]
      simpa [attemptDone] using h500
    have h := retryLoop_first_done attempt rc 0 0 (by omega)
      (fun m hm => absurd hm (Nat.not_lt_zero m)) (by simpa using hdone)
    unfold makeRequest
    rw [show (0 : Nat) + 0 = 0 from rfl] at h
    rw [h, hst]
    simp [h400]

/-- Attempts that always fail at the transport level. -/
def attTransport : Nat → HttpOutcome := fun _ => .transportError

/-- Attempts that always return HTTP 404. -/
def att404 : Nat → HttpOutcome := fun _ => .response 404

theorem c6_makeRequest_retry_witness :
    ((retryLoop attTransport 0 3).2
        = List.range' 1 (retryLoop attTransport 0 3).2.length
      ∧ (retryLoop attTransport 0 3).2.length < 3)
    ∧ (retryLoop attTransport 0 3).2 = [1, 2]
    ∧ makeRequest attTransport 3
        = (.error "request failed after 3 retries", [1, 2])
    ∧ retryLoop att404 0 3 = (.response 404, [])
    ∧ makeRequest att404 3
        = (.error "request failed with status 404", []) := by
  have hT := c6_makeRequest_retry attTransport 3 (by norm_num)
  have h4 := c6_makeRequest_retry att404 3 (by norm_num)
  refine ⟨hT.1, by decide, ?_, ?_, ?_⟩
  · have := hT.2.2.1 (fun m _ => rfl)
    rw [this]
    rfl
  · exact h4.2.1 (by decide)
  · exact h4.2.2.2 404 rfl (by norm_num) (by norm_num)

/-! ## Payload-segment helpers -/

theorem seg_take1 (x : Nat) (A R : List Nat) (hA : A.length = 8) :
    List.take 8 (List.drop 1 (x :: (A ++ R))) = A := by
  rw [show List.drop 1 (x :: (A ++ R)) = A ++ R from rfl, List.take_left' hA]

theorem seg_drop9 (x : Nat) (A R : List Nat) (hA : A.length = 8) :
    List.drop 9 (x :: (A ++ R)) = R := by
  rw [show List.drop 9 (x :: (A ++ R)) = List.drop 8 (A ++ R) from rfl,
    List.drop_left' hA]

theorem seg_drop17 (x : Nat) (A B : List Nat) (y : Nat)
    (hA : A.length = 8) (hB : B.length = 8) :
    List.drop 17 (x :: (A ++ (B ++ [y]))) = [y] := by
  rw [show x :: (A ++ (B ++ [y])) = (x :: A) ++ (B ++ [y]) from rfl,
    show (17 : Nat) = (x :: A).length + 8 from by simp [hA],
    List.drop_append, List.drop_left' hB]

theorem leDecode_putUint64LE (n : Nat) (h : n < 2 ^ 64) :
    leDecode (putUint64LE n) = n := by
  unfold putUint64LE
  rw [leDecode_toBytesLE]
  have h8 : (256 : Nat) ^ 8 = 2 ^ 64 := by norm_num
  rw [h8]
  exact Nat.mod_eq_of_lt h

/-! ## Claim C1 -/

/-- The spec's end-to-end Raydium swap request (SOL → USDC), with the
exactly representable dyadic slippage `0.5 = 1·2⁻¹` in place of `0.005`
so every float64 value in play is exact. -/
def c1Req : SwapRequest :=
  ⟨solMintStr, usdcMintStr, 1000000000, zeroWalletStr,
   ⟨1, -1⟩, 0, "raydium", "c1"⟩

/-- The instruction the Raydium adapter actually builds for `c1Req`. -/
def c1Instr : InstructionData :=
  (raydiumBuildSwapInstruction constDeriver systemProgramID c1Req).toOption.getD
    ⟨systemProgramID, [], []⟩

/-- Counterexample to C1: the Raydium build succeeds on the spec's
scenario, but bytes 9..17 of the payload decode to
`calculateMinAmountOut(amountIn, slippage) = ⌊float64(10⁹) × 0.5⌋ =
500000000` — a function of the request's `amountIn` only.  No quote is
ever fetched on the build path; for a quoted output of `2000000002`
(any value other than `amountIn` behaves the same) the claimed formula
`⌊quotedOut × (1 − slippage)⌋` gives `1000000001 ≠ 500000000`. -/
theorem c1_minout_from_amountIn_counterexample :
    raydiumBuildSwapInstruction constDeriver systemProgramID c1Req = .ok c1Instr
    ∧ leDecode (List.drop 9 c1Instr.data) = 500000000
    ∧ calculateMinAmountOut c1Req.amountIn c1Req.slippage = 500000000
    ∧ minAmountOutSpec 2000000002 ⟨1, -1⟩ = 1000000001
    ∧ 500000000 < 1000000001 := by
  refine ⟨by rfl, by decide, by decide, by decide, by norm_num⟩

/-- C1 (amended): for every Raydium swap request the build accepts, the
payload is exactly 17 bytes, byte 0 is the opcode 9, bytes 1..9 decode
little-endian to the request's `amountIn`, bytes 9..17 decode to
`calculateMinAmountOut(req.AmountIn, req.Slippage)` — derived from the
request's input amount, not from a quoted output — and the account list
has exactly 6 entries whose first is the user wallet marked as signer. -/
theorem c1_raydium_swap_payload (D : AddressDeriver) (pid : Pubkey)
    (req : SwapRequest) (i : InstructionData)
    (h : raydiumBuildSwapInstruction D pid req = .ok i)
    (hIn : req.amountIn < 2 ^ 64)
    (hMin : calculateMinAmountOut req.amountIn req.slippage < 2 ^ 64) :
    i.data.length = 17
    ∧ i.data.head? = some 9
    ∧ leDecode (List.take 8 (List.drop 1 i.data)) = req.amountIn
    ∧ leDecode (List.drop 9 i.data)
        = calculateMinAmountOut req.amountIn req.slippage
    ∧ i.accounts.length = 6
    ∧ (∃ w, pubkeyFromBase58 req.userWallet = some w
        ∧ i.accounts.head? = some ⟨w, true, false⟩) := by
  obtain ⟨w, a, b, uIn, uOut, hw, hi⟩ :=
    raydiumBuildSwapInstruction_ok_shape D pid req i h
  subst hi
  have la : (putUint64LE req.amountIn).length = 8 := toBytesLE_length 8 _
  refine ⟨?_, rfl, ?_, ?_, rfl, ⟨w, hw, rfl⟩⟩
  · show (raydiumBuildSwapInstructionData req).length = 17
    simp [raydiumBuildSwapInstructionData, putUint64LE, toBytesLE_length]
  · show leDecode (List.take 8 (List.drop 1 (raydiumBuildSwapInstructionData req)))
        = req.amountIn
    unfold raydiumBuildSwapInstructionData
    rw [seg_take1 _ _ _ la, leDecode_putUint64LE _ hIn]
  · show leDecode (List.drop 9 (raydiumBuildSwapInstructionData req))
        = calculateMinAmountOut req.amountIn req.slippage
    unfold raydiumBuildSwapInstructionData
    rw [seg_drop9 _ _ _ la, leDecode_putUint64LE _ hMin]

theorem c1_raydium_swap_payload_witness :
    c1Instr.data.length = 17
    ∧ c1Instr.data.head? = some 9
    ∧ leDecode (List.take 8 (List.drop 1 c1Instr.data)) = c1Req.amountIn
    ∧ leDecode (List.drop 9 c1Instr.data)
        = calculateMinAmountOut c1Req.amountIn c1Req.slippage
    ∧ c1Instr.accounts.length = 6
    ∧ (∃ w, pubkeyFromBase58 c1Req.userWallet = some w
        ∧ c1Instr.accounts.head? = some ⟨w, true, false⟩) :=
  c1_raydium_swap_payload constDeriver systemProgramID c1Req c1Instr
    (by rfl) (by decide) (by decide)

/-! ## Claim C8 -/

/-- C8: the Pumpfun swap payload is exactly 18 bytes — byte 0 is opcode
6 when the input mint is the SOL mint and 7 otherwise, bytes 1..9 are
`amountIn` little-endian, bytes 9..17 are the computed min-amount-out
little-endian, and byte 17 (direction) mirrors the opcode choice: 0
(buy) exactly when the opcode is 6 and 1 (sell) exactly when it is 7.
A successful `BuildSwapInstruction` carries exactly this payload. -/
theorem c8_pumpfun_swap_payload (req : SwapRequest)
    (hIn : req.amountIn < 2 ^ 64)
    (hMin : calculateMinAmountOut req.amountIn req.slippage < 2 ^ 64) :
    (pumpfunBuildSwapInstructionData req).length = 18
    ∧ (pumpfunBuildSwapInstructionData req).head?
        = some (if req.inputMint = solMintStr then 6 else 7)
    ∧ leDecode (List.take 8 (List.drop 1 (pumpfunBuildSwapInstructionData req)))
        = req.amountIn
    ∧ leDecode (List.take 8 (List.drop 9 (pumpfunBuildSwapInstructionData req)))
        = calculateMinAmountOut req.amountIn req.slippage
    ∧ List.drop 17 (pumpfunBuildSwapInstructionData req)
        = [if req.inputMint = solMintStr then 0 else 1]
    ∧ ((pumpfunBuildSwapInstructionData req).head? = some 6
        ↔ List.drop 17 (pumpfunBuildSwapInstructionData req) = [0])
    ∧ ((pumpfunBuildSwapInstructionData req).head? = some 7
        ↔ List.drop 17 (pumpfunBuildSwapInstructionData req) = [1])
    ∧ (∀ (D : AddressDeriver) (pid : Pubkey) (i : InstructionData),
        pumpfunBuildSwapInstruction D pid req = .ok i →
          i.data = pumpfunBuildSwapInstructionData req) := by
  have la : (putUint64LE req.amountIn).length = 8 := toBytesLE_length 8 _
  have lb : (putUint64LE (calculateMinAmountOut req.amountIn req.slippage)).length = 8 :=
    toBytesLE_length 8 _
  have hlen : (pumpfunBuildSwapInstructionData req).length = 18 := by
    simp [pumpfunBuildSwapInstructionData, putUint64LE, toBytesLE_length]
  have hhead : (pumpfunBuildSwapInstructionData req).head?
      = some (if req.inputMint = solMintStr then 6 else 7) := rfl
  have hseg1 : leDecode (List.take 8 (List.drop 1 (pumpfunBuildSwapInstructionData req)))
      = req.amountIn := by
    unfold pumpfunBuildSwapInstructionData
    rw [List.append_assoc, seg_take1 _ _ _ la, leDecode_putUint64LE _ hIn]
  have hseg2 : leDecode (List.take 8 (List.drop 9 (pumpfunBuildSwapInstructionData req)))
      = calculateMinAmountOut req.amountIn req.slippage := by
    unfold pumpfunBuildSwapInstructionData
    rw [List.append_assoc, seg_drop9 _ _ _ la, List.take_left' lb,
      leDecode_putUint64LE _ hMin]
  have hlast : List.drop 17 (pumpfunBuildSwapInstructionData req)
      = [if req.inputMint = solMintStr then 0 else 1] := by
    unfold pumpfunBuildSwapInstructionData
    rw [List.append_assoc, seg_drop17 _ _ _ _ la lb]
  refine ⟨hlen, hhead, hseg1, hseg2, hlast, ?_, ?_, ?_⟩
  · rw [hhead, hlast]
    by_cases hm : req.inputMint = solMintStr <;> simp [hm]
  · rw [hhead, hlast]
    by_cases hm : req.inputMint = solMintStr <;> simp [hm]
  · intro D pid i h
    obtain ⟨w, a, b, bc, bcta, uIn, uOut, hw, hi⟩ :=
      pumpfunBuildSwapInstruction_ok_shape D pid req i h
    rw [hi]

/-- The Pumpfun config entry used by the witness fixtures. -/
def pumpfunCfg : DEXConfig :=
  ⟨"pumpfun", zeroWalletStr, "", [], true, 30, 3⟩

/-- A Pumpfun buy request (input mint = SOL) with an exactly
representable slippage of 0 (fast path). -/
def c8Req : SwapRequest :=
  ⟨solMintStr, usdcMintStr, 12345, zeroWalletStr, ⟨0, 0⟩, 0, "pumpfun", "c8"⟩

def c8Instr : InstructionData :=
  (pumpfunBuildSwapInstruction constDeriver systemProgramID c8Req).toOption.getD
    ⟨systemProgramID, [], []⟩

theorem c8_pumpfun_swap_payload_witness :
    (pumpfunBuildSwapInstructionData c8Req).length = 18
    ∧ (pumpfunBuildSwapInstructionData c8Req).head? = some 6
    ∧ leDecode (List.take 8 (List.drop 1 (pumpfunBuildSwapInstructionData c8Req)))
        = c8Req.amountIn
    ∧ leDecode (List.take 8 (List.drop 9 (pumpfunBuildSwapInstructionData c8Req)))
        = calculateMinAmountOut c8Req.amountIn c8Req.slippage
    ∧ List.drop 17 (pumpfunBuildSwapInstructionData c8Req) = [0]
    ∧ c8Instr.data = pumpfunBuildSwapInstructionData c8Req := by
  have h := c8_pumpfun_swap_payload c8Req (by decide) (by decide)
  refine ⟨h.1, h.2.1.trans (by decide), h.2.2.1, h.2.2.2.1,
    (h.2.2.2.2.1).trans (by decide),
    h.2.2.2.2.2.2.2 constDeriver systemProgramID c8Instr (by rfl)⟩

/-! ## Claim C9 -/

/-- The C9 invariant for one built instruction: the account at index 0
is the request's (parsed) user wallet, marked signer and non-writable,
and it is the only signer in the whole account list. -/
def soleWalletSigner (wallet : String) (i : InstructionData) : Prop :=
  ∃ w, pubkeyFromBase58 wallet = some w
    ∧ i.accounts.head? = some ⟨w, true, false⟩
    ∧ List.countP (fun a => a.isSigner) i.accounts = 1

/-- C9: every `InstructionData` successfully returned by any adapter's
`BuildSwapInstruction` or `BuildLiquidityInstruction` (Raydium, Pumpfun,
PumpSwap) has exactly one signer account; it sits at index 0, equals the
request's user wallet, and is marked non-writable. -/
theorem c9_sole_signer_is_wallet :
    (∀ (D : AddressDeriver) (a : Adapter) (req : SwapRequest)
        (i : InstructionData),
      adapterBuildSwapInstruction D a req = .ok i
        → soleWalletSigner req.userWallet i)
    ∧ (∀ (D : AddressDeriver) (a : Adapter) (req : LiquidityRequest)
        (i : InstructionData),
      adapterBuildLiquidityInstruction D a req = .ok i
        → soleWalletSigner req.userWallet i) := by
  constructor
  · intro D a req i h
    cases a with
    | raydium n cfg pid =>
        obtain ⟨w, x1, x2, x3, x4, hw, hi⟩ :=
          raydiumBuildSwapInstruction_ok_shape D pid req i h
        subst hi
        exact ⟨w, hw, rfl, by simp [List.countP_cons]⟩
    | pumpfun n cfg pid =>
        obtain ⟨w, x1, x2, x3, x4, x5, x6, hw, hi⟩ :=
          pumpfunBuildSwapInstruction_ok_shape D pid req i h
        subst hi
        exact ⟨w, hw, rfl, by simp [List.countP_cons]⟩
    | pumpswap n cfg pid router =>
        obtain ⟨w, x1, x2, x3, x4, x5, x6, x7, hw, hi⟩ :=
          pumpswapBuildSwapInstruction_ok_shape D pid router req i h
        subst hi
        exact ⟨w, hw, rfl, by simp [List.countP_cons]⟩
  · intro D a req i h
    cases a with
    | raydium n cfg pid =>
        obtain ⟨w, x1, x2, x3, x4, hw, hi⟩ :=
          raydiumBuildLiquidityInstruction_ok_shape D pid req i h
        subst hi
        exact ⟨w, hw, rfl, by simp [List.countP_cons]⟩
    | pumpfun n cfg pid =>
        simp [adapterBuildLiquidityInstruction,
          pumpfunBuildLiquidityInstruction] at h
    | pumpswap n cfg pid router =>
        obtain ⟨w, x1, x2, x3, x4, x5, x6, x7, hw, hi⟩ :=
          pumpswapBuildLiquidityInstruction_ok_shape D pid req i h
        subst hi
        exact ⟨w, hw, rfl, by simp [List.countP_cons]⟩

theorem c9_sole_signer_is_wallet_witness :
    soleWalletSigner c8Req.userWallet c8Instr :=
  c9_sole_signer_is_wallet.1 constDeriver
    (.pumpfun "pumpfun" pumpfunCfg systemProgramID) c8Req c8Instr (by rfl)

/-! ## Claim C7 -/

/-- C7: once a swap or liquidity encoding request reaches the
transaction-build step (adapter found, request valid, instruction and
transaction built, serialization fine), a failing RPC fee estimation
never fails the build: the response still carries `success = true` and
the serialized base64 transaction, with the estimated fee fixed at the
documented 5000-lamport default. -/
theorem c7_fee_fallback (env : RpcEnv) (D : AddressDeriver)
    (marshal : BuiltTx → Except String (List Nat)) (reg : Registry)
    (fid est : String)
    (he : estimateTransactionFee env = .error est)
    (sreq : SwapRequest) (sa : Adapter) (si : InstructionData)
    (stx : BuiltTx) (sbs : List Nat)
    (hs1 : registryGet reg sreq.dexType = .ok sa)
    (hs2 : adapterValidateRequest sa (.swap sreq) = .ok ())
    (hs3 : adapterBuildSwapInstruction D sa sreq = .ok si)
    (hs4 : buildTransaction env [si] sreq.userWallet sreq.priorityFee = .ok stx)
    (hs5 : marshal stx = .ok sbs)
    (lreq : LiquidityRequest) (la : Adapter) (li : InstructionData)
    (ltx : BuiltTx) (lbs : List Nat)
    (hl1 : registryGet reg lreq.dexType = .ok la)
    (hl2 : adapterValidateRequest la (.liquidity lreq) = .ok ())
    (hl3 : adapterBuildLiquidityInstruction D la lreq = .ok li)
    (hl4 : buildTransaction env [li] lreq.userWallet lreq.priorityFee = .ok ltx)
    (hl5 : marshal ltx = .ok lbs) :
    encodeSwapTransaction env D marshal reg fid sreq
      = ⟨true, String.mk (base64Encode sbs), 5000, fid, ""⟩
    ∧ encodeLiquidityTransaction env D marshal reg fid lreq
      = ⟨true, String.mk (base64Encode lbs), 5000, fid, ""⟩ := by
  constructor
  · simp [encodeSwapTransaction, hs1, hs2, hs3, hs4, hs5, he]
  · simp [encodeLiquidityTransaction, hl1, hl2, hl3, hl4, hl5, he]

/-- The Raydium config entry used by the witness fixtures. -/
def raydiumCfg : DEXConfig :=
  ⟨"raydium", zeroWalletStr, "", [], true, 30, 3⟩

def c7Adapter : Adapter := .raydium "raydium" raydiumCfg systemProgramID

def c7Reg : Registry := [("raydium", c7Adapter)]

/-- An RPC environment whose blockhash call succeeds but whose
fee-for-message call fails at the transport level. -/
def c7Env : RpcEnv := ⟨some [7, 7, 7], none⟩

def c7Marshal : BuiltTx → Except String (List Nat) := fun _ => .ok [77, 78]

def c7SwapReq : SwapRequest :=
  ⟨solMintStr, usdcMintStr, 777, zeroWalletStr, ⟨0, 0⟩, 0, "raydium", "c7s"⟩

def c7SwapInstr : InstructionData :=
  (raydiumBuildSwapInstruction constDeriver systemProgramID c7SwapReq).toOption.getD
    ⟨systemProgramID, [], []⟩

def c7SwapTx : BuiltTx :=
  (buildTransaction c7Env [c7SwapInstr] c7SwapReq.userWallet
    c7SwapReq.priorityFee).toOption.getD ⟨[], [], systemProgramID⟩

def c7LiqReq : LiquidityRequest :=
  ⟨solMintStr, usdcMintStr, 5, 6, zeroWalletStr, ⟨0, 0⟩, 0, "add", "raydium", "c7l"⟩

def c7LiqInstr : InstructionData :=
  (raydiumBuildLiquidityInstruction constDeriver systemProgramID
    c7LiqReq).toOption.getD ⟨systemProgramID, [], []⟩

def c7LiqTx : BuiltTx :=
  (buildTransaction c7Env [c7LiqInstr] c7LiqReq.userWallet
    c7LiqReq.priorityFee).toOption.getD ⟨[], [], systemProgramID⟩

theorem c7_fee_fallback_witness :
    encodeSwapTransaction c7Env constDeriver c7Marshal c7Reg "req-1" c7SwapReq
      = ⟨true, String.mk (base64Encode [77, 78]), 5000, "req-1", ""⟩
    ∧ encodeLiquidityTransaction c7Env constDeriver c7Marshal c7Reg "req-1" c7LiqReq
      = ⟨true, String.mk (base64Encode [77, 78]), 5000, "req-1", ""⟩ :=
  c7_fee_fallback c7Env constDeriver c7Marshal c7Reg "req-1"
    "failed to get fee estimate" (by rfl)
    c7SwapReq c7Adapter c7SwapInstr c7SwapTx [77, 78]
    (by rfl) (by rfl) (by rfl) (by rfl) (by rfl)
    c7LiqReq c7Adapter c7LiqInstr c7LiqTx [77, 78]
    (by rfl) (by rfl) (by rfl) (by rfl) (by rfl)

/-! ## Claim C10 -/

theorem registerDexStep_eq (reg : List (String × Adapter)) (d : DEXConfig) :
    registerDexStep reg d
      = reg ++ ((adapterFor d).map (fun a => (d.name, a))).toList := by
  unfold registerDexStep adapterFor
  by_cases he : d.enabled = false
  · simp [he]
  · simp only [if_neg he]
    by_cases h1 : d.name = "raydium"
    · simp only [if_pos h1]
      cases h : newRaydiumAdapter d with
      | error e => simp [h, Except.toOption]
      | ok a => simp [h, Except.toOption, registerAdapter, List.concat_eq_append]
    · simp only [if_neg h1]
      by_cases h2 : d.name = "pumpfun"
      · simp only [if_pos h2]
        cases h : newPumpfunAdapter d with
        | error e => simp [h, Except.toOption]
        | ok a => simp [h, Except.toOption, registerAdapter, List.concat_eq_append]
      · simp only [if_neg h2]
        by_cases h3 : d.name = "pumpswap"
        · simp only [if_pos h3]
          cases h : newPumpSwapAdapter d with
          | error e => simp [h, Except.toOption]
          | ok a => simp [h, Except.toOption, registerAdapter, List.concat_eq_append]
        · simp [if_neg h3]

theorem foldl_registerDexStep (l : List DEXConfig) :
    ∀ reg : List (String × Adapter), l.foldl registerDexStep reg
      = reg ++ l.filterMap (fun d => (adapterFor d).map (fun a => (d.name, a))) := by
  induction l with
  | nil => intro reg; simp
  | cons d t ih =>
      intro reg
      rw [List.foldl_cons, ih, registerDexStep_eq, List.filterMap_cons]
      cases adapterFor d <;> simp

theorem lookup_eq_none_of_keys (l : List (String × Adapter)) (n : String)
    (h : ∀ p ∈ l, ¬ p.1 = n) : l.lookup n = none := by
  induction l with
  | nil => rfl
  | cons p t ih =>
      obtain ⟨k, v⟩ := p
      have hp := h (k, v) (List.mem_cons_self (k, v) t)
      have hne : (n == k) = false :=
        beq_eq_false_iff_ne.mpr (fun hh => hp hh.symm)
      simp only [List.lookup, hne]
      exact ih (fun q hq => h q (List.mem_cons_of_mem (k, v) hq))

/-- C10: `NewTransactionService` is total — the registry it builds is
exactly the fold of the registration loop, which keeps precisely the
config entries whose adapter constructs successfully (`adapterFor d =
some a`): disabled entries, entries with an unknown name, and entries
whose constructor fails (e.g. an invalid program ID) are silently
skipped, and a later `Get` for a name none of whose entries registered
returns the `adapter not found` error. -/
theorem c10_registry (cfg : Config) (n : String)
    (hnone : ∀ d ∈ cfg.dexes, adapterFor d = none ∨ ¬ d.name = n) :
    newTransactionServiceRegistry cfg
      = cfg.dexes.filterMap (fun d => (adapterFor d).map (fun a => (d.name, a)))
    ∧ registryGet (newTransactionServiceRegistry cfg) n
      = .error ("adapter not found: " ++ n) := by
  have h1 : newTransactionServiceRegistry cfg
      = cfg.dexes.filterMap (fun d => (adapterFor d).map (fun a => (d.name, a))) := by
    unfold newTransactionServiceRegistry
    rw [foldl_registerDexStep]
    exact List.nil_append _
  refine ⟨h1, ?_⟩
  have hl : (List.reverse (newTransactionServiceRegistry cfg)).lookup n = none := by
    apply lookup_eq_none_of_keys
    intro p hp
    rw [h1, List.mem_reverse] at hp
    obtain ⟨d, hd, hmap⟩ := List.mem_filterMap.mp hp
    cases ha : adapterFor d with
    | none => rw [ha] at hmap; exact absurd hmap (by simp)
    | some a =>
        rw [ha] at hmap
        have hmap2 : (d.name, a) = p := by simpa using hmap
        rcases hnone d hd with hcontra | hname
        · rw [ha] at hcontra; exact absurd hcontra (by simp)
        · subst hmap2
          exact hname
  unfold registryGet
  rw [hl]

/-- Three config entries the registration loop skips: a disabled
Raydium entry, an enabled entry with an unknown DEX name, and an
enabled Raydium entry whose program ID does not base58-decode. -/
def c10Cfg : Config :=
  ⟨[⟨"raydium", zeroWalletStr, "", [], false, 30, 3⟩,
    ⟨"orca", zeroWalletStr, "", [], true, 30, 3⟩,
    ⟨"raydium", "invalid-program-id", "", [], true, 30, 3⟩]⟩

theorem c10_registry_witness :
    newTransactionServiceRegistry c10Cfg
      = c10Cfg.dexes.filterMap (fun d => (adapterFor d).map (fun a => (d.name, a)))
    ∧ registryGet (newTransactionServiceRegistry c10Cfg) "raydium"
      = .error "adapter not found: raydium" := by
  have hn : ∀ d ∈ c10Cfg.dexes, adapterFor d = none ∨ ¬ d.name = "raydium" := by
    intro d hd
    simp only [c10Cfg, List.mem_cons, List.not_mem_nil, or_false] at hd
    rcases hd with rfl | rfl | rfl
    · exact Or.inl rfl
    · exact Or.inr (by decide)
    · exact Or.inl rfl
  have h := c10_registry c10Cfg "raydium" hn
  exact ⟨h.1, h.2.trans (by rfl)⟩
